import Mathlib

/-!
# Verification of the OpenMeta-analyst dataset model (`ma_dataset.py`)

A shallow embedding of the in-memory meta-analysis data model:
`Dataset` → `Study` → outcome/follow-up → `MetaAnalyticUnit` → `TreatmentGroup`.

Modelling conventions:
* Python scalar values that flow through the model (raw-data cells, covariate
  values, effect slots, study names used as comparison values) are modelled by
  the inductive `PyVal` (`None`, strings, and numbers; numbers are modelled as
  integers since no claim depends on float arithmetic).
* Python dictionaries are modelled as insertion-ordered association lists with
  first-match lookup (`dlookup`), replace-or-append update (`dset`) and
  first-match removal (`dpop`), matching CPython dict semantics up to the
  (unspecified) hash iteration order of Python 2 dicts, for which we adopt
  insertion order.
* Operations that mutate in place and may raise return `σ × Option PyErr`:
  the returned state is the state at the moment the exception propagates
  (Python mutations performed before the raise are kept), and `none` means
  normal termination.  Operations that only read and may raise return
  `Option`-typed results (`none` = the exception; no state escapes).
* `list(set(xs))` is modelled by `pySet` and `sorted(xs)` by `pySort`; Python 2
  set/sort orders on the relevant inputs are reflected up to the facts the
  claims use (membership, and sortedness-independent membership respectively).
-/

namespace MADataset

/-- A Python scalar value as used by the dataset model: `None`, a string, or a
number (numbers modelled as integers; only storage and comparison matter here). -/
inductive PyVal
  | vnone
  | vstr (s : String)
  | vint (n : Int)
deriving DecidableEq, Repr

/-- Python exceptions raised by the model.  `raise Exception, msg` is
`exception msg`; built-in lookup/indexing errors keep their Python names. -/
inductive PyErr
  | exception (msg : String)
  | keyError
  | indexError
  | valueError
  | attributeError
deriving DecidableEq, Repr

/-! ## Module-level constants (`ma_dataset.py` lines 31-46) -/

def BINARY : Nat := 0
def CONTINUOUS : Nat := 1
def DIAGNOSTIC : Nat := 2
def OTHER : Nat := 3
def FACTOR : Nat := 4

/-- `EMPTY_VALS = ("", None)` — the values the module treats as an empty
row/cell. -/
def EMPTY_VALS : List PyVal := [.vstr "", .vnone]

/-- Membership test `v in EMPTY_VALS`. -/
def isEmptyVal : PyVal → Bool
  | .vstr s => s = ""
  | .vnone => true
  | _ => false

theorem isEmptyVal_iff_mem (v : PyVal) : isEmptyVal v = true ↔ v ∈ EMPTY_VALS := by
  cases v with
  | vnone => simp [isEmptyVal, EMPTY_VALS]
  | vstr s => simp [isEmptyVal, EMPTY_VALS]
  | vint n => simp [isEmptyVal, EMPTY_VALS]

/-- Whether a raw-data row contains an empty cell in the sense of
`EMPTY_VALS` (`""` or `None`). -/
def containsEmptyCell (row : List PyVal) : Bool :=
  row.any isEmptyVal

/-! ## Python dictionaries as insertion-ordered association lists -/

section Dict

variable {α : Type} {β : Type} [DecidableEq α]

/-- `d[k]` as an option: first-match lookup. -/
def dlookup : List (α × β) → α → Option β
  | [], _ => none
  | (k', v) :: rest, k => if k' = k then some v else dlookup rest k

/-- `d[k] = v`: replace the value at the first matching key in place, or
append a fresh entry. -/
def dset : List (α × β) → α → β → List (α × β)
  | [], k, v => [(k, v)]
  | (k', v') :: rest, k, v => if k' = k then (k', v) :: rest else (k', v') :: dset rest k v

/-- `d.pop(k)` (ignoring the returned value): drop the first entry with the
given key. -/
def dpop : List (α × β) → α → List (α × β)
  | [], _ => []
  | (k', v') :: rest, k => if k' = k then rest else (k', v') :: dpop rest k

/-- `d.has_key(k)` / `k in d`. -/
def dhasKey (d : List (α × β)) (k : α) : Bool :=
  (dlookup d k).isSome

/-- `d.keys()` (insertion order). -/
def dkeys (d : List (α × β)) : List α :=
  d.map Prod.fst

/-- `d.values()` (insertion order). -/
def dvalues (d : List (α × β)) : List β :=
  d.map Prod.snd

@[simp] theorem dlookup_nil (k : α) : dlookup ([] : List (α × β)) k = none := rfl

theorem dlookup_cons (k' : α) (v : β) (rest : List (α × β)) (k : α) :
    dlookup ((k', v) :: rest) k = if k' = k then some v else dlookup rest k := rfl

@[simp] theorem dlookup_dset_self (d : List (α × β)) (k : α) (v : β) :
    dlookup (dset d k v) k = some v := by
  induction d with
  | nil => simp [dset, dlookup]
  | cons hd tl ih =>
    obtain ⟨k', v'⟩ := hd
    by_cases h : k' = k <;> simp [dset, dlookup, h, ih]

theorem dlookup_dset_ne (d : List (α × β)) (k k' : α) (v : β) (h : k' ≠ k) :
    dlookup (dset d k v) k' = dlookup d k' := by
  induction d with
  | nil => simp [dset, dlookup, Ne.symm h]
  | cons hd tl ih =>
    obtain ⟨k₀, v₀⟩ := hd
    by_cases hk : k₀ = k
    · subst hk
      simp [dset, dlookup, Ne.symm h]
    · simp [dset, dlookup, hk, ih]

theorem dlookup_dpop_ne (d : List (α × β)) (k k' : α) (h : k' ≠ k) :
    dlookup (dpop d k) k' = dlookup d k' := by
  induction d with
  | nil => simp [dpop]
  | cons hd tl ih =>
    obtain ⟨k₀, v₀⟩ := hd
    by_cases hk : k₀ = k
    · subst hk
      simp [dpop, dlookup, Ne.symm h]
    · simp [dpop, dlookup, hk, ih]

theorem dlookup_eq_none_iff (d : List (α × β)) (k : α) :
    dlookup d k = none ↔ k ∉ dkeys d := by
  induction d with
  | nil => simp [dkeys]
  | cons hd tl ih =>
    obtain ⟨k', v'⟩ := hd
    by_cases h : k' = k
    · subst h
      simp [dlookup, dkeys]
    · simp [dlookup, dkeys, h, ih, Ne.symm h]

theorem dhasKey_iff_mem_dkeys (d : List (α × β)) (k : α) :
    dhasKey d k = true ↔ k ∈ dkeys d := by
  rw [dhasKey, Option.isSome_iff_ne_none]
  rw [ne_eq, dlookup_eq_none_iff]
  tauto

/-- Setting a key that is absent appends the entry at the end; popping it
afterwards restores the original dictionary. -/
theorem dpop_dset_of_not_mem (d : List (α × β)) (k : α) (v : β)
    (h : dlookup d k = none) : dpop (dset d k v) k = d := by
  induction d with
  | nil => simp [dset, dpop]
  | cons hd tl ih =>
    obtain ⟨k', v'⟩ := hd
    rw [dlookup_cons] at h
    by_cases hk : k' = k
    · simp [hk] at h
    · simp [hk] at h
      simp [dset, dpop, hk, ih h]

/-- Popping a key then looking it up yields `none` when keys are duplicate-free. -/
theorem dlookup_dpop_self (d : List (α × β)) (k : α) (h : (dkeys d).Nodup) :
    dlookup (dpop d k) k = none := by
  induction d with
  | nil => simp [dpop]
  | cons hd tl ih =>
    obtain ⟨k', v'⟩ := hd
    rw [dkeys, List.map_cons, List.nodup_cons] at h
    by_cases hk : k' = k
    · subst hk
      rw [dpop, if_pos rfl, dlookup_eq_none_iff]
      exact h.1
    · rw [dpop, if_neg hk, dlookup, if_neg hk]
      exact ih h.2

theorem dkeys_dset_of_mem (d : List (α × β)) (k : α) (v : β)
    (h : k ∈ dkeys d) : dkeys (dset d k v) = dkeys d := by
  induction d with
  | nil => simp [dkeys] at h
  | cons hd tl ih =>
    obtain ⟨k', v'⟩ := hd
    by_cases hk : k' = k
    · rw [dset, if_pos hk]
      rfl
    · rw [dkeys, List.map_cons, List.mem_cons] at h
      rcases h with h | h
      · exact absurd h.symm hk
      · rw [dset, if_neg hk]
        show k' :: dkeys (dset tl k v) = k' :: dkeys tl
        rw [ih h]

theorem mem_dkeys_dset (d : List (α × β)) (k k' : α) (v : β) :
    k' ∈ dkeys (dset d k v) ↔ k' ∈ dkeys d ∨ k' = k := by
  induction d with
  | nil => simp [dset, dkeys]
  | cons hd tl ih =>
    obtain ⟨k₀, v₀⟩ := hd
    by_cases hk : k₀ = k
    · subst hk
      rw [dset, if_pos rfl]
      show k' ∈ k₀ :: dkeys tl ↔ k' ∈ k₀ :: dkeys tl ∨ k' = k₀
      constructor
      · exact Or.inl
      · rintro (h | h)
        · exact h
        · exact h ▸ List.mem_cons_self _ _
    · rw [dset, if_neg hk]
      show k' ∈ k₀ :: dkeys (dset tl k v) ↔ k' ∈ k₀ :: dkeys tl ∨ k' = k
      simp only [List.mem_cons, ih]
      tauto

end Dict

/-! ## `list(set(xs))` and `sorted(xs)`

Python 2 set iteration order is hash-table order, which the source relies on
nowhere; we model `list(set(xs))` by a duplicate-elimination function and use
only its membership behaviour.  Likewise `sorted` is used only through
membership, so we model it by insertion sort on strings. -/

/-- `list(set(xs))`: duplicates removed (order: rightmost occurrences kept). -/
def pySet {α : Type} [DecidableEq α] : List α → List α
  | [] => []
  | x :: xs => if x ∈ pySet xs then pySet xs else x :: pySet xs

theorem mem_pySet {α : Type} [DecidableEq α] (x : α) (l : List α) :
    x ∈ pySet l ↔ x ∈ l := by
  induction l with
  | nil => simp [pySet]
  | cons hd tl ih =>
    rw [pySet]
    by_cases h : hd ∈ pySet tl
    · rw [if_pos h, ih]
      constructor
      · intro hx
        exact List.mem_cons_of_mem _ hx
      · intro hx
        rcases List.mem_cons.mp hx with rfl | hx
        · exact ih.mp h
        · exact hx
    · rw [if_neg h, List.mem_cons, List.mem_cons, ih]

/-- Insertion into a ≤-sorted list of strings. -/
def insertSorted (x : String) : List String → List String
  | [] => [x]
  | y :: ys => if x < y then x :: y :: ys else y :: insertSorted x ys

/-- `sorted(xs)` for a list of strings. -/
def pySort : List String → List String
  | [] => []
  | x :: xs => insertSorted x (pySort xs)

theorem mem_insertSorted (x y : String) (l : List String) :
    y ∈ insertSorted x l ↔ y = x ∨ y ∈ l := by
  induction l with
  | nil => simp [insertSorted]
  | cons hd tl ih =>
    by_cases h : x < hd
    · simp [insertSorted, h]
    · simp [insertSorted, h, ih]
      tauto

theorem mem_pySort (x : String) (l : List String) :
    x ∈ pySort l ↔ x ∈ l := by
  induction l with
  | nil => simp [pySort]
  | cons hd tl ih => simp [pySort, mem_insertSorted, ih]

/-! ## Python 2 `cmp` on the values the model compares -/

/-- `cmp` on two integers. -/
def pycmpInt (a b : Int) : Int :=
  if a < b then -1 else if b < a then 1 else 0

/-- Lexicographic three-way comparison of character lists. -/
def pycmpChars : List Char → List Char → Int
  | [], [] => 0
  | [], _ :: _ => -1
  | _ :: _, [] => 1
  | a :: as, b :: bs => if a < b then -1 else if b < a then 1 else pycmpChars as bs

/-- `cmp` on two strings (lexicographic, as in Python 2 `str`). -/
def pycmpStr (a b : String) : Int :=
  pycmpChars a.data b.data

/-- Python 2 `cmp` on the scalar values of this model.  Cross-type rules:
`None` is smaller than everything, and numbers are smaller than strings. -/
def pycmp : PyVal → PyVal → Int
  | .vnone, .vnone => 0
  | .vnone, _ => -1
  | _, .vnone => 1
  | .vint a, .vint b => pycmpInt a b
  | .vstr a, .vstr b => pycmpStr a b
  | .vint _, .vstr _ => -1
  | .vstr _, .vint _ => 1

/-! ## Data structures

Presentation-only fields that no modelled operation reads or writes
(`Study.N`, `Study.notes`, `Study.include`, `Study.manually_excluded`,
`Dataset.num_outcomes`, `Dataset.num_follow_ups`, `Dataset.num_treatments`,
`Outcome.links`) are omitted. -/

/-- A treatment arm: integer id, name, and list of raw-data cells. -/
structure TreatmentGroup where
  id : Nat
  name : String
  raw_data : List PyVal
deriving DecidableEq, Repr

/-- A measured endpoint: name and data type (`BINARY`, `CONTINUOUS`,
`DIAGNOSTIC` or `OTHER`). -/
structure Outcome where
  name : String
  data_type : Nat
deriving DecidableEq, Repr

/-- Study-level covariate meta-data. -/
structure Covariate where
  name : String
  data_type : Nat
deriving DecidableEq, Repr

/-- The per-study, per-outcome, per-follow-up unit of analysis.  `tx_groups`
maps group names to `TreatmentGroup`s; `effects_dict` maps effect names (e.g.
"OR") to dictionaries with keys "est"/"lower"/"upper"/"variance" (binary) or
"est"/"lower"/"upper"/"SE" (continuous). -/
structure MetaAnalyticUnit where
  outcome : Outcome
  tx_groups : List (String × TreatmentGroup)
  raw_data_length : Nat
  effects_dict : List (String × List (String × PyVal))
deriving DecidableEq, Repr

/-- `MetaAnalyticUnit.get_group_names`: `self.tx_groups.keys()`. -/
def MetaAnalyticUnit.get_group_names (u : MetaAnalyticUnit) : List String :=
  dkeys u.tx_groups

/-- `max([group.id for group in self.tx_groups.values()])` for a non-empty
group dictionary (a fold from 0 is the same value since ids are naturals). -/
def maxGroupId (u : MetaAnalyticUnit) : Nat :=
  (u.tx_groups.map (fun p => p.2.id)).foldl max 0

/-- `MetaAnalyticUnit.add_group`: the fresh group's id is `0` when no groups
exist and `max(existing ids) + 1` otherwise; a `None` raw-data argument gives a
blank row of length `raw_data_length`. -/
def MetaAnalyticUnit.add_group (u : MetaAnalyticUnit) (name : String)
    (raw_data : Option (List PyVal)) : MetaAnalyticUnit :=
  let id := if u.tx_groups = [] then 0 else maxGroupId u + 1
  let rd := raw_data.getD (List.replicate u.raw_data_length (.vstr ""))
  { u with tx_groups := dset u.tx_groups name ⟨id, name, rd⟩ }

/-- `MetaAnalyticUnit.remove_group`: `self.tx_groups.pop(name)` — raises
`KeyError` when the group is absent. -/
def MetaAnalyticUnit.remove_group (u : MetaAnalyticUnit) (name : String) :
    MetaAnalyticUnit × Option PyErr :=
  if dhasKey u.tx_groups name then
    ({ u with tx_groups := dpop u.tx_groups name }, none)
  else (u, some .keyError)

/-- `MetaAnalyticUnit.rename_group`: `tx_groups[new] = tx_groups[old]` (raises
`KeyError` when `old` is absent — before anything is mutated) followed by
`tx_groups.pop(old)`.  The stored `TreatmentGroup` value is re-keyed, not
rebuilt. -/
def MetaAnalyticUnit.rename_group (u : MetaAnalyticUnit)
    (old_name new_name : String) : MetaAnalyticUnit × Option PyErr :=
  match dlookup u.tx_groups old_name with
  | none => (u, some .keyError)
  | some g =>
      ({ u with tx_groups := dpop (dset u.tx_groups new_name g) old_name }, none)

/-- `MetaAnalyticUnit.get_raw_data_for_group`: on a missing group the source
catches the `KeyError`, calls `pyqtRemoveInputHook()` and drops into the `pdb`
interactive debugger, after which the function falls off its end and returns
`None` to the caller; `debuggerNone` is that observable outcome. -/
inductive RawLookupResult
  | found (rd : List PyVal)
  | debuggerNone
deriving DecidableEq, Repr

/-- `MetaAnalyticUnit.get_raw_data_for_group` (source lines 564-569). -/
def MetaAnalyticUnit.get_raw_data_for_group (u : MetaAnalyticUnit)
    (group_name : String) : RawLookupResult :=
  match dlookup u.tx_groups group_name with
  | some tg => .found tg.raw_data
  | none => .debuggerNone

/-- `MetaAnalyticUnit.set_raw_data_for_group`. -/
def MetaAnalyticUnit.set_raw_data_for_group (u : MetaAnalyticUnit)
    (group_name : String) (raw_data : List PyVal) : MetaAnalyticUnit × Option PyErr :=
  match dlookup u.tx_groups group_name with
  | none => (u, some .keyError)
  | some tg => ({ u with tx_groups := dset u.tx_groups group_name { tg with raw_data := raw_data } }, none)

/-- The blank effect slots seeded by `MetaAnalyticUnit.__init__` for one
effect name of a binary outcome. -/
def blankBinaryEffect : List (String × PyVal) :=
  [("est", .vnone), ("lower", .vnone), ("upper", .vnone), ("variance", .vnone)]

/-- The blank effect slots seeded for one effect name of a continuous outcome. -/
def blankContinuousEffect : List (String × PyVal) :=
  [("est", .vnone), ("lower", .vnone), ("upper", .vnone), ("SE", .vnone)]

/-- The `effects_dict` seeded by `MetaAnalyticUnit.__init__`: OR/RR/RD for
binary outcomes, MD/SMD for continuous ones, empty otherwise. -/
def initialEffectsDict (data_type : Nat) : List (String × List (String × PyVal)) :=
  if data_type = BINARY then
    [("OR", blankBinaryEffect), ("RR", blankBinaryEffect), ("RD", blankBinaryEffect)]
  else if data_type = CONTINUOUS then
    [("MD", blankContinuousEffect), ("SMD", blankContinuousEffect)]
  else []

/-- The `for i, group in enumerate(group_names)` loop of
`MetaAnalyticUnit.__init__`: add each group, then overwrite its raw data with
row `i` of the supplied nested list. -/
def initGroupsLoop (u : MetaAnalyticUnit) (raw_data : List (List PyVal)) :
    List (Nat × String) → MetaAnalyticUnit
  | [] => u
  | (i, g) :: rest =>
      let u1 := u.add_group g none
      let newTg : TreatmentGroup :=
        match dlookup u1.tx_groups g with
        | some tg => { tg with raw_data := raw_data.getD i [] }
        | none => ⟨0, g, raw_data.getD i []⟩
      let u2 := { u1 with tx_groups := dset u1.tx_groups g newTg }
      initGroupsLoop u2 raw_data rest

/-- `MetaAnalyticUnit.__init__(outcome, raw_data, group_names)`.  Group names
default to `["tx A", "tx B"]`; a `None` (or empty, per Python `or`) raw-data
argument defaults to one blank row per group.  When a caller-supplied raw-data
list is shorter than the group list the source raises `IndexError` part-way
through construction and no object is produced, which we model by checking the
lengths up front and returning `none`. -/
def initMAUnit (outcome : Outcome) (raw_dataOpt : Option (List (List PyVal)))
    (group_namesOpt : Option (List String)) : Option MetaAnalyticUnit :=
  let group_names := group_namesOpt.getD ["tx A", "tx B"]
  let len := if outcome.data_type = BINARY then 2 else 3
  let raw_data :=
    match raw_dataOpt with
    | none => group_names.map (fun _ => List.replicate len (PyVal.vstr ""))
    | some [] => group_names.map (fun _ => List.replicate len (PyVal.vstr ""))
    | some l => l
  if raw_data.length < group_names.length then none
  else
    let u0 : MetaAnalyticUnit :=
      { outcome := outcome, tx_groups := [], raw_data_length := len,
        effects_dict := initialEffectsDict outcome.data_type }
    some (initGroupsLoop u0 raw_data group_names.enum)

/-- `MetaAnalyticUnit.set_effect`: `effects_dict[effect]["est"] = value`
(raises `KeyError` when the effect name is absent). -/
def MetaAnalyticUnit.set_effect (u : MetaAnalyticUnit) (effect : String)
    (value : PyVal) : MetaAnalyticUnit × Option PyErr :=
  match dlookup u.effects_dict effect with
  | none => (u, some .keyError)
  | some d => ({ u with effects_dict := dset u.effects_dict effect (dset d "est" value) }, none)

/-- `MetaAnalyticUnit.set_effect_and_ci`: `set_effect` followed by setting the
"lower" and "upper" slots. -/
def MetaAnalyticUnit.set_effect_and_ci (u : MetaAnalyticUnit) (effect : String)
    (est lower upper : PyVal) : MetaAnalyticUnit × Option PyErr :=
  match u.set_effect effect est with
  | (u1, some e) => (u1, some e)
  | (u1, none) =>
      match dlookup u1.effects_dict effect with
      | none => (u1, some .keyError)
      | some d1 =>
          let u2 := { u1 with effects_dict := dset u1.effects_dict effect (dset d1 "lower" lower) }
          match dlookup u2.effects_dict effect with
          | none => (u2, some .keyError)
          | some d2 =>
              ({ u2 with effects_dict := dset u2.effects_dict effect (dset d2 "upper" upper) }, none)

/-- `MetaAnalyticUnit.get_effect_and_ci`: the triple
`(effects_dict[effect]["est"], ...["lower"], ...["upper"])`; `none` models the
`KeyError` on a missing key. -/
def MetaAnalyticUnit.get_effect_and_ci (u : MetaAnalyticUnit) (effect : String) :
    Option (PyVal × PyVal × PyVal) := do
  let d ← dlookup u.effects_dict effect
  let est ← dlookup d "est"
  let lower ← dlookup d "lower"
  let upper ← dlookup d "upper"
  return (est, lower, upper)

/-! ## Study -/

/-- A study: meta-data plus the mapping
outcome name → (follow-up name → `MetaAnalyticUnit`) and the parallel list of
`Outcome` objects. -/
structure Study where
  id : Nat
  name : String
  year : Option Int
  outcomes_to_follow_ups : List (String × List (String × MetaAnalyticUnit))
  outcomes : List Outcome
  covariate_dict : List (String × PyVal)
deriving DecidableEq, Repr

/-- `"Study already contains an outcome named %s" % outcome.name`. -/
def dupOutcomeMsg (name : String) : String :=
  "Study already contains an outcome named " ++ name

/-- `Study.add_outcome`: raises a duplicate-entity `Exception` when the study
already has an outcome of that name, otherwise installs a fresh blank
`MetaAnalyticUnit` under the follow-up name and appends the outcome object. -/
def Study.add_outcome (st : Study) (outcome : Outcome) (follow_up_name : String)
    (group_names : Option (List String)) : Study × Option PyErr :=
  if dhasKey st.outcomes_to_follow_ups outcome.name then
    (st, some (.exception (dupOutcomeMsg outcome.name)))
  else
    match initMAUnit outcome none group_names with
    | none =>
        let m := dset st.outcomes_to_follow_ups outcome.name []
        ({ st with outcomes_to_follow_ups := m }, some .indexError)
    | some u =>
        let m := dset st.outcomes_to_follow_ups outcome.name [(follow_up_name, u)]
        ({ st with outcomes_to_follow_ups := m, outcomes := st.outcomes ++ [outcome] }, none)

/-- Python `list.remove(x)`: drop the first element equal to `x`. -/
def removeFirst (x : Outcome) : List Outcome → List Outcome
  | [] => []
  | y :: ys => if y = x then ys else y :: removeFirst x ys

theorem removeFirst_length_le (x : Outcome) (l : List Outcome) :
    (removeFirst x l).length ≤ l.length := by
  induction l with
  | nil => simp [removeFirst]
  | cons hd tl ih =>
    by_cases h : hd = x
    · simp [removeFirst, h]
    · simp only [removeFirst, if_neg h, List.length_cons]
      omega

/-- The `for outcome in self.outcomes: if outcome.name == outcome_name:
self.outcomes.remove(outcome)` loop of `Study.remove_outcome`, with Python's
remove-while-iterating semantics: the iterator's position index advances while
the list shrinks in place. -/
def removeOutcomesLoop (name : String) (lst : List Outcome) (i : Nat) : List Outcome :=
  if h : i < lst.length then
    if lst[i].name = name then
      removeOutcomesLoop name (removeFirst lst[i] lst) (i + 1)
    else removeOutcomesLoop name lst (i + 1)
  else lst
termination_by lst.length - i
decreasing_by
  all_goals simp_wf
  · have hle := removeFirst_length_le lst[i] lst
    omega
  · omega

/-- `Study.remove_outcome`: `outcomes_to_follow_ups.pop(outcome_name)` (raises
`KeyError` when absent) and removal of the matching outcome objects. -/
def Study.remove_outcome (st : Study) (outcome_name : String) : Study × Option PyErr :=
  if dhasKey st.outcomes_to_follow_ups outcome_name then
    ({ st with
        outcomes_to_follow_ups := dpop st.outcomes_to_follow_ups outcome_name,
        outcomes := removeOutcomesLoop outcome_name st.outcomes 0 }, none)
  else (st, some .keyError)

/-- `Study.get_outcome`: first outcome object with the given name, else `None`. -/
def Study.get_outcome (st : Study) (outcome_name : String) : Option Outcome :=
  st.outcomes.find? (fun o => o.name == outcome_name)

/-- `Study.get_outcome_names`. -/
def Study.get_outcome_names (st : Study) : List String :=
  st.outcomes.map (fun o => o.name)

/-- `Study.add_follow_up_to_outcome`: installs a fresh blank unit at the
follow-up name for the outcome (a `KeyError` when the study does not carry the
outcome in its mapping). -/
def Study.add_follow_up_to_outcome (st : Study) (outcome : Outcome)
    (follow_up_name : String) (group_names : Option (List String)) :
    Study × Option PyErr :=
  match initMAUnit outcome none group_names with
  | none => (st, some .indexError)
  | some u =>
      match dlookup st.outcomes_to_follow_ups outcome.name with
      | none => (st, some .keyError)
      | some fus =>
          let m := dset st.outcomes_to_follow_ups outcome.name (dset fus follow_up_name u)
          ({ st with outcomes_to_follow_ups := m }, none)

/-! ## Dataset -/

/-- Modelled from the spec: `TwoWayDict` (module `two_way_dict`, not included
under `src/`) is described as "an ordered bidirectional map abstraction"
holding the follow-up index/name pairs of an outcome; it behaves as a
dictionary keyed by index with an additional reverse lookup `get_key`.  We
model it as an index-keyed association list. -/
abbrev TwoWayDict := List (Nat × String)

/-- The root object: studies, the outcome name → follow-up index/name mapping,
and covariate definitions. -/
structure Dataset where
  title : Option String
  summary : Option String
  studies : List Study
  outcome_names_to_follow_ups : List (String × TwoWayDict)
  covariates : List Covariate
  notes : String
deriving DecidableEq, Repr

/-- A `for study in self.studies:` loop whose body mutates the study and may
raise: studies before the failure point keep their updates, the failing study
keeps the state it had when the exception propagated, and later studies are
untouched. -/
def studiesLoop (f : Study → Study × Option PyErr) :
    List Study → List Study × Option PyErr
  | [] => ([], none)
  | st :: rest =>
      match f st with
      | (st', none) =>
          let r := studiesLoop f rest
          (st' :: r.1, r.2)
      | (st', some e) => (st' :: rest, some e)

/-- `Dataset.get_outcome_names`: sorted outcome keys of the *first* study
(empty for an empty dataset). -/
def Dataset.get_outcome_names (ds : Dataset) : List String :=
  match ds.studies with
  | [] => []
  | st :: _ => pySort (dkeys st.outcomes_to_follow_ups)

/-- `Dataset.get_group_names` (the second, effective definition at source
lines 278-285): every group name of every unit, deduplicated. -/
def Dataset.get_group_names (ds : Dataset) : List String :=
  pySet (ds.studies.flatMap (fun st =>
    st.outcomes_to_follow_ups.flatMap (fun p =>
      (dvalues p.2).flatMap MetaAnalyticUnit.get_group_names)))

/-- The message of the `Exception` raised by `Dataset.change_group_name` when
exactly one of outcome/follow-up is specified (source line 94; the line
continuation's inner whitespace is normalised to a single space). -/
def changeGroupNameExcMsg : String :=
  "dataset -- change_group_name -- either both outcome and follow_up should be None, or else neither should."

/-- The inner `for ma_unit in cur_outcome.values(): ma_unit.rename_group(...)`
loop over the follow-up → unit dictionary of one outcome. -/
def renameFollowUpsLoop (old_name new_name : String) :
    List (String × MetaAnalyticUnit) → List (String × MetaAnalyticUnit) × Option PyErr
  | [] => ([], none)
  | (fu, u) :: rest =>
      match u.rename_group old_name new_name with
      | (u', none) =>
          let r := renameFollowUpsLoop old_name new_name rest
          ((fu, u') :: r.1, r.2)
      | (u', some e) => ((fu, u') :: rest, some e)

/-- The `for outcome_name in study.outcomes_to_follow_ups.keys():` loop of the
unscoped rename. -/
def renameOutcomesLoop (old_name new_name : String) :
    List (String × List (String × MetaAnalyticUnit)) →
    List (String × List (String × MetaAnalyticUnit)) × Option PyErr
  | [] => ([], none)
  | (oname, fus) :: rest =>
      match renameFollowUpsLoop old_name new_name fus with
      | (fus', none) =>
          let r := renameOutcomesLoop old_name new_name rest
          ((oname, fus') :: r.1, r.2)
      | (fus', some e) => ((oname, fus') :: rest, some e)

/-- The unscoped branch of `Dataset.change_group_name` for one study. -/
def studyRenameAll (old_name new_name : String) (st : Study) : Study × Option PyErr :=
  match renameOutcomesLoop old_name new_name st.outcomes_to_follow_ups with
  | (m, e) => ({ st with outcomes_to_follow_ups := m }, e)

/-- The scoped branch of `Dataset.change_group_name` for one study:
`study.outcomes_to_follow_ups[outcome][follow_up].rename_group(...)`. -/
def studyRenameScoped (outcome follow_up old_name new_name : String) (st : Study) :
    Study × Option PyErr :=
  match dlookup st.outcomes_to_follow_ups outcome with
  | none => (st, some .keyError)
  | some fus =>
      match dlookup fus follow_up with
      | none => (st, some .keyError)
      | some u =>
          match u.rename_group old_name new_name with
          | (u', none) =>
              let m := dset st.outcomes_to_follow_ups outcome (dset fus follow_up u')
              ({ st with outcomes_to_follow_ups := m }, none)
          | (_, some e) => (st, some e)

/-- `Dataset.change_group_name` (source lines 92-107): the argument check
first, then either the unscoped rename over every study/outcome/follow-up or
the scoped rename at one outcome/follow-up. -/
def Dataset.change_group_name (ds : Dataset) (old_group_name new_group_name : String)
    (outcome follow_up : Option String) : Dataset × Option PyErr :=
  if (outcome.isNone && follow_up.isSome) || (follow_up.isNone && outcome.isSome) then
    (ds, some (.exception changeGroupNameExcMsg))
  else
    let f : Study → Study × Option PyErr :=
      match outcome, follow_up with
      | some o, some fu => studyRenameScoped o fu old_group_name new_group_name
      | _, _ => studyRenameAll old_group_name new_group_name
    match studiesLoop f ds.studies with
    | (sts, e) => ({ ds with studies := sts }, e)

/-- `Dataset.add_outcome`: installs `{0: "baseline"}` in the dataset-level
follow-up mapping (before any study is touched), then adds the outcome to
every study with the current group names. -/
def Dataset.add_outcome (ds : Dataset) (outcome : Outcome) : Dataset × Option PyErr :=
  let cur_group_names := ds.get_group_names
  let gn : Option (List String) := if cur_group_names = [] then none else some cur_group_names
  let m := dset ds.outcome_names_to_follow_ups outcome.name [(0, "baseline")]
  let ds1 := { ds with outcome_names_to_follow_ups := m }
  match studiesLoop (fun st => st.add_outcome outcome "baseline" gn) ds1.studies with
  | (sts, e) => ({ ds1 with studies := sts }, e)

/-- `Dataset.remove_outcome`: pops the dataset-level mapping (a `KeyError`
when absent), then removes the outcome from every study. -/
def Dataset.remove_outcome (ds : Dataset) (outcome_name : String) : Dataset × Option PyErr :=
  if dhasKey ds.outcome_names_to_follow_ups outcome_name then
    let m := dpop ds.outcome_names_to_follow_ups outcome_name
    let ds1 := { ds with outcome_names_to_follow_ups := m }
    match studiesLoop (fun st => st.remove_outcome outcome_name) ds1.studies with
    | (sts, e) => ({ ds1 with studies := sts }, e)
  else (ds, some .keyError)

/-- `Dataset.get_outcome_obj`: the first study's match, else `None`. -/
def Dataset.get_outcome_obj (ds : Dataset) (outcome_name : String) : Option Outcome :=
  ds.studies.findSome? (fun st => st.get_outcome outcome_name)

/-- `Dataset.add_follow_up_to_outcome` (source lines 257-269): the new
follow-up is keyed by `max(existing indices) + 1` in the outcome's
`TwoWayDict`, then added to every study.  `attributeError` models
`outcome.name` on the `None` returned by `get_outcome_obj` for an unknown
outcome; `valueError` models Python `max([])`. -/
def Dataset.add_follow_up_to_outcome (ds : Dataset) (outcome_name follow_up_name : String) :
    Dataset × Option PyErr :=
  match ds.get_outcome_obj outcome_name with
  | none => (ds, some .attributeError)
  | some outcome =>
      let cur_group_names := ds.get_group_names
      let gn : Option (List String) := if cur_group_names = [] then none else some cur_group_names
      match dlookup ds.outcome_names_to_follow_ups outcome.name with
      | none => (ds, some .keyError)
      | some twd =>
          if twd = [] then (ds, some .valueError)
          else
            let prev_index := (dkeys twd).foldl max 0
            let m := dset ds.outcome_names_to_follow_ups outcome.name
              (dset twd (prev_index + 1) follow_up_name)
            let ds1 := { ds with outcome_names_to_follow_ups := m }
            match studiesLoop (fun st => st.add_follow_up_to_outcome outcome follow_up_name gn) ds1.studies with
            | (sts, e) => ({ ds1 with studies := sts }, e)

/-- `Dataset.get_follow_up_names_for_outcome`: the union of the follow-up keys
the studies hold for the outcome (the source's bare `try/except: pass`
swallows the `KeyError` of studies without the outcome). -/
def Dataset.get_follow_up_names_for_outcome (ds : Dataset) (outcome : String) : List String :=
  pySet (ds.studies.flatMap (fun st =>
    match dlookup st.outcomes_to_follow_ups outcome with
    | some fus => dkeys fus
    | none => []))

/-- `Dataset.ma_unit_has_edge_between_groups`: `False` as soon as some listed
group's raw data contains the empty string `""` (only `""`, not `None`, is
checked); `none` models the `KeyError` for a group name not in the unit.
(A `Dataset` method in the source, but it never touches `self`.) -/
def ma_unit_has_edge_between_groups (u : MetaAnalyticUnit) : List String → Option Bool
  | [] => some true
  | g :: rest =>
      match dlookup u.tx_groups g with
      | none => none
      | some tg =>
          if PyVal.vstr "" ∈ tg.raw_data then some false
          else ma_unit_has_edge_between_groups u rest

/-- The inner `for g2 in [group for group in group_names if group != g1]:`
loop of `Dataset.get_network`, accumulating the adjacency list. -/
def edgeLoopInner (u : MetaAnalyticUnit) (g1 : String) :
    List String → List (String × String) → Option (List (String × String))
  | [], adj => some adj
  | g2 :: rest, adj =>
      match ma_unit_has_edge_between_groups u [g1, g2] with
      | none => none
      | some b =>
          let adj' := if b = true ∧ (g1, g2) ∉ adj ∧ (g2, g1) ∉ adj
            then adj ++ [(g1, g2)] else adj
          edgeLoopInner u g1 rest adj'

/-- The outer `for g1 in group_names:` loop of `Dataset.get_network`,
accumulating node and adjacency lists. -/
def edgeLoopOuter (u : MetaAnalyticUnit) (group_names : List String) :
    List String → List String → List (String × String) →
    Option (List String × List (String × String))
  | [], nodes, adj => some (nodes, adj)
  | g1 :: rest, nodes, adj =>
      match edgeLoopInner u g1 (group_names.filter (fun g => g ≠ g1)) adj with
      | none => none
      | some adj' => edgeLoopOuter u group_names rest (nodes ++ [g1]) adj'

/-- The `for study in self.studies:` loop of `Dataset.get_network`; `none`
models the `KeyError` of a study without a unit at the outcome/time point. -/
def networkStudiesLoop (outcome time_point : String) :
    List Study → List String → List (String × String) →
    Option (List String × List (String × String))
  | [], nodes, adj => some (nodes, adj)
  | st :: rest, nodes, adj =>
      match dlookup st.outcomes_to_follow_ups outcome with
      | none => none
      | some fus =>
          match dlookup fus time_point with
          | none => none
          | some u =>
              match edgeLoopOuter u u.get_group_names u.get_group_names nodes adj with
              | none => none
              | some r => networkStudiesLoop outcome time_point rest r.1 r.2

/-- `Dataset.get_network` (source lines 325-338): nodes are the deduplicated
group names, edges the accumulated adjacency pairs. -/
def Dataset.get_network (ds : Dataset) (outcome time_point : String) :
    Option (List String × List (String × String)) :=
  match networkStudiesLoop outcome time_point ds.studies [] [] with
  | none => none
  | some (nodes, adj) => some (pySet nodes, adj)

/-! ## Study comparators (`cmp_studies` and helpers; `Dataset` methods in the
source, but none of them reads `self`) -/

/-- `Dataset._both_empty`. -/
def both_empty (a b : PyVal) : Bool :=
  isEmptyVal a && isEmptyVal b

/-- `Dataset._cmp_wrapper`: empty values compare as greater than non-empty
ones, with the sign flipped when `reverse` is set; otherwise plain `cmp`. -/
def cmp_wrapper (study_a_val study_b_val : PyVal) (reverse : Bool) : Int :=
  let flip_sign : Int := if reverse then -1 else 1
  if isEmptyVal study_a_val then flip_sign * 1
  else if isEmptyVal study_b_val then flip_sign * -1
  else pycmp study_a_val study_b_val

/-- `Dataset._meta_cmp_wrapper`: when both compared values are empty, fall
back to comparing the study names. -/
def meta_cmp_wrapper (study_a study_b : Study) (study_a_val study_b_val : PyVal)
    (reverse : Bool) : Int :=
  if both_empty study_a_val study_b_val then
    cmp_wrapper (.vstr study_a.name) (.vstr study_b.name) reverse
  else cmp_wrapper study_a_val study_b_val reverse

/-- `study.year` as a comparison value (`None` when unset). -/
def yearVal (st : Study) : PyVal :=
  st.year.elim .vnone .vint

/-- `Dataset.cmp_studies`: the comparator factory.  For a covariate name the
values are `study.covariate_dict[compare_by]`; `none` models the `KeyError`
when a study lacks the covariate key. -/
def cmp_studies (compare_by : String) (reverse : Bool) (study_a study_b : Study) :
    Option Int :=
  if compare_by = "name" then
    some (meta_cmp_wrapper study_a study_b (.vstr study_a.name) (.vstr study_b.name) reverse)
  else if compare_by = "year" then
    some (meta_cmp_wrapper study_a study_b (yearVal study_a) (yearVal study_b) reverse)
  else
    match dlookup study_a.covariate_dict compare_by, dlookup study_b.covariate_dict compare_by with
    | some va, some vb => some (meta_cmp_wrapper study_a study_b va vb reverse)
    | _, _ => none

/-- How a comparator value is consumed by a sort run with the same `reverse`
flag (e.g. Python's `sorted(studies, cmp=comparator, reverse=reverse)`): with
`reverse = True` the sorted output is in descending comparator order, so `a`
is placed before `b` exactly when the comparator value is positive. -/
def placedBefore (reverse : Bool) (c : Int) : Bool :=
  if reverse then 0 < c else c < 0

/-! ## Facts about `pycmpStr` (Python 2 `cmp` on strings) -/

theorem pycmpChars_cases (a : List Char) : ∀ b,
    pycmpChars a b = -1 ∨ pycmpChars a b = 0 ∨ pycmpChars a b = 1 := by
  induction a with
  | nil =>
    intro b
    cases b <;> simp [pycmpChars]
  | cons c cs ih =>
    intro b
    cases b with
    | nil => simp [pycmpChars]
    | cons d ds =>
      rw [pycmpChars]
      by_cases h1 : c < d
      · simp [h1]
      · by_cases h2 : d < c <;> simp [h1, h2, ih ds]

theorem pycmpStr_trichotomy (a b : String) :
    pycmpStr a b = -1 ∨ pycmpStr a b = 0 ∨ pycmpStr a b = 1 :=
  pycmpChars_cases a.data b.data

theorem pycmpStr_pos_iff (a b : String) : 0 < pycmpStr a b ↔ pycmpStr a b = 1 := by
  rcases pycmpStr_trichotomy a b with h | h | h <;> rw [h] <;> omega

theorem pycmpStr_empty_left_ne_one (b : String) : pycmpStr "" b ≠ 1 := by
  rw [pycmpStr]
  show pycmpChars [] b.data ≠ 1
  cases b.data <;> simp [pycmpChars]

theorem string_ne_empty_data (a : String) (h : a ≠ "") : a.data ≠ [] := by
  intro hd
  apply h
  cases a
  simp at hd
  simp [hd]

theorem pycmpStr_ne_empty_right (a : String) (h : a ≠ "") : pycmpStr a "" = 1 := by
  rw [pycmpStr]
  show pycmpChars a.data [] = 1
  cases hd : a.data with
  | nil => exact absurd hd (string_ne_empty_data a h)
  | cons c cs => simp [pycmpChars]

/-! ## Concrete fixtures used by the claim theorems -/

/-- A binary outcome named "O". -/
def outcomeO : Outcome := ⟨"O", BINARY⟩

/-- A unit with no treatment groups, as produced by
`MetaAnalyticUnit(outcomeO, group_names=[])`. -/
def emptyUnit : MetaAnalyticUnit :=
  { outcome := outcomeO, tx_groups := [], raw_data_length := 2,
    effects_dict := initialEffectsDict BINARY }

/-! ## Helper lemmas about `foldl max` -/

theorem foldl_max_le_init (l : List Nat) (a : Nat) : a ≤ l.foldl max a := by
  induction l generalizing a with
  | nil => simp
  | cons hd tl ih => exact le_trans (le_max_left a hd) (ih (max a hd))

theorem le_foldl_max (l : List Nat) (a x : Nat) (hx : x ∈ l) : x ≤ l.foldl max a := by
  induction l generalizing a with
  | nil => cases hx
  | cons hd tl ih =>
    rcases List.mem_cons.mp hx with rfl | hx
    · exact le_trans (le_max_right a x) (foldl_max_le_init tl (max a x))
    · exact ih (max a hd) hx

/-! ## C8 -/

/-- C8: `add_group` assigns the fresh `TreatmentGroup` the id 0 when no groups
exist and the maximum existing id plus one otherwise, so a fresh id never
equals an existing one; but after removing the maximum-id group and adding
again, the reissued id collides with the removed group's id (witnessed by the
concrete add A, add B, remove B, add C sequence where C receives B's id 1). -/
theorem add_group_id_assignment :
    (∀ (u : MetaAnalyticUnit) (name : String) (rd : Option (List PyVal)),
      u.tx_groups = [] →
      dlookup (u.add_group name rd).tx_groups name =
        some ⟨0, name, rd.getD (List.replicate u.raw_data_length (.vstr ""))⟩)
    ∧ (∀ (u : MetaAnalyticUnit) (name : String) (rd : Option (List PyVal)),
      u.tx_groups ≠ [] →
      dlookup (u.add_group name rd).tx_groups name =
        some ⟨maxGroupId u + 1, name, rd.getD (List.replicate u.raw_data_length (.vstr ""))⟩
      ∧ ∀ p ∈ u.tx_groups, p.2.id ≠ maxGroupId u + 1)
    ∧ (initMAUnit outcomeO none (some []) = some emptyUnit
      ∧ dlookup ((emptyUnit.add_group "A" none).add_group "B" none).tx_groups "B" =
          some ⟨1, "B", [.vstr "", .vstr ""]⟩
      ∧ ((((emptyUnit.add_group "A" none).add_group "B" none).remove_group "B").2 = none
      ∧ dlookup (((((emptyUnit.add_group "A" none).add_group "B" none).remove_group "B").1.add_group
          "C" none).tx_groups) "C" = some ⟨1, "C", [.vstr "", .vstr ""]⟩)) := by
  refine ⟨?_, ?_, by decide⟩
  · intro u name rd h
    simp [MetaAnalyticUnit.add_group, h, dset, dlookup]
  · intro u name rd h
    refine ⟨by simp [MetaAnalyticUnit.add_group, h], ?_⟩
    intro p hp
    have : p.2.id ≤ maxGroupId u :=
      le_foldl_max _ 0 _ (List.mem_map.mpr ⟨p, hp, rfl⟩)
    omega

/-- Witness for C8 at concrete inputs. -/
theorem add_group_id_assignment_witness :
    dlookup (emptyUnit.add_group "A" none).tx_groups "A" =
      some ⟨0, "A", (none : Option (List PyVal)).getD (List.replicate emptyUnit.raw_data_length (.vstr ""))⟩
    ∧ dlookup ((emptyUnit.add_group "A" none).add_group "B" none).tx_groups "B" =
      some ⟨maxGroupId (emptyUnit.add_group "A" none) + 1, "B",
        (none : Option (List PyVal)).getD (List.replicate (emptyUnit.add_group "A" none).raw_data_length (.vstr ""))⟩
    ∧ ∀ p ∈ (emptyUnit.add_group "A" none).tx_groups,
        p.2.id ≠ maxGroupId (emptyUnit.add_group "A" none) + 1 :=
  ⟨add_group_id_assignment.1 emptyUnit "A" none rfl,
   (add_group_id_assignment.2.1 (emptyUnit.add_group "A" none) "B" none (by decide)).1,
   (add_group_id_assignment.2.1 (emptyUnit.add_group "A" none) "B" none (by decide)).2⟩

/-! ## C9 -/

/-- C9 (code-bug evidence): looking up raw data for a group name that is not
among the unit's groups does not raise a not-found error to the caller — the
source swallows the `KeyError`, enters the interactive `pdb` debugger and then
returns `None` (`RawLookupResult.debuggerNone`). -/
theorem get_raw_data_for_group_missing_enters_debugger :
    dlookup emptyUnit.tx_groups "tx A" = none ∧
    emptyUnit.get_raw_data_for_group "tx A" = .debuggerNone := by
  decide

/-! ## C10 -/

/-- C10: for a unit whose effects dictionary contains effect `e`, after
`set_effect_and_ci(e, est, lower, upper)` the call `get_effect_and_ci(e)`
returns exactly `(est, lower, upper)`, the "variance" and "SE" slots of `e`
keep their old values, and the entries of every other effect name are
unchanged. -/
theorem set_effect_and_ci_roundtrip (u : MetaAnalyticUnit) (e : String)
    (est lower upper : PyVal) (d : List (String × PyVal))
    (hd : dlookup u.effects_dict e = some d) :
    (u.set_effect_and_ci e est lower upper).2 = none ∧
    (u.set_effect_and_ci e est lower upper).1.get_effect_and_ci e = some (est, lower, upper) ∧
    (∃ d', dlookup (u.set_effect_and_ci e est lower upper).1.effects_dict e = some d' ∧
      dlookup d' "variance" = dlookup d "variance" ∧
      dlookup d' "SE" = dlookup d "SE") ∧
    (∀ e', e' ≠ e →
      dlookup (u.set_effect_and_ci e est lower upper).1.effects_dict e' = dlookup u.effects_dict e') := by
  have h1 : u.set_effect e est =
      ({ u with effects_dict := dset u.effects_dict e (dset d "est" est) }, none) := by
    rw [MetaAnalyticUnit.set_effect, hd]
  have h2 : u.set_effect_and_ci e est lower upper = ({ u with effects_dict := dset (dset (dset u.effects_dict e (dset d "est" est)) e (dset (dset d "est" est) "lower" lower)) e (dset (dset (dset d "est" est) "lower" lower) "upper" upper) }, none) := by
    rw [MetaAnalyticUnit.set_effect_and_ci, h1]
    simp only [dlookup_dset_self]
  rw [h2]
  refine ⟨rfl, ?_, ?_, ?_⟩
  · rw [MetaAnalyticUnit.get_effect_and_ci]
    simp only [dlookup_dset_self, Option.bind_eq_bind, Option.some_bind]
    rw [dlookup_dset_ne _ "upper" "est" _ (by decide),
        dlookup_dset_ne _ "lower" "est" _ (by decide), dlookup_dset_self,
        dlookup_dset_ne _ "upper" "lower" _ (by decide), dlookup_dset_self]
    rfl
  · refine ⟨_, by rw [dlookup_dset_self], ?_, ?_⟩
    · rw [dlookup_dset_ne _ "upper" "variance" _ (by decide),
          dlookup_dset_ne _ "lower" "variance" _ (by decide),
          dlookup_dset_ne _ "est" "variance" _ (by decide)]
    · rw [dlookup_dset_ne _ "upper" "SE" _ (by decide),
          dlookup_dset_ne _ "lower" "SE" _ (by decide),
          dlookup_dset_ne _ "est" "SE" _ (by decide)]
  · intro e' he'
    rw [dlookup_dset_ne _ e e' _ he', dlookup_dset_ne _ e e' _ he',
        dlookup_dset_ne _ e e' _ he']

/-! ## C4 -/

/-- C4: the comparator `cmp_studies(compare_by=<covariate>, reverse=True)`,
consumed by a reverse-aware sort (`placedBefore true`), places a study with an
empty covariate value ("" or `None`) after a study with a non-empty value in
both comparison directions; and when both compared covariate values are empty
it falls back to the study names in descending order (per `reverse = True`),
i.e. `a` comes before `b` exactly when Python `cmp(a.name, b.name)` is 1. -/
theorem cmp_studies_covariate_empty_sort (cv : String) (hn : cv ≠ "name") (hy : cv ≠ "year")
    (sa sb : Study) (va vb : PyVal)
    (ha : dlookup sa.covariate_dict cv = some va)
    (hb : dlookup sb.covariate_dict cv = some vb) :
    (isEmptyVal va = true → isEmptyVal vb = false →
      cmp_studies cv true sa sb = some (-1) ∧ cmp_studies cv true sb sa = some 1 ∧
      placedBefore true (-1) = false ∧ placedBefore true 1 = true) ∧
    (isEmptyVal va = true → isEmptyVal vb = true →
      ∃ r, cmp_studies cv true sa sb = some r ∧
        (placedBefore true r = true ↔ pycmpStr sa.name sb.name = 1)) := by
  have hcv : cmp_studies cv true sa sb = some (meta_cmp_wrapper sa sb va vb true) := by
    rw [cmp_studies, if_neg hn, if_neg hy, ha, hb]
  have hcv' : cmp_studies cv true sb sa = some (meta_cmp_wrapper sb sa vb va true) := by
    rw [cmp_studies, if_neg hn, if_neg hy, hb, ha]
  constructor
  · intro hea heb
    refine ⟨?_, ?_, by decide, by decide⟩
    · rw [hcv, meta_cmp_wrapper]
      simp [both_empty, cmp_wrapper, hea, heb]
    · rw [hcv', meta_cmp_wrapper]
      simp [both_empty, cmp_wrapper, hea, heb]
  · intro hea heb
    refine ⟨meta_cmp_wrapper sa sb va vb true, hcv, ?_⟩
    rw [meta_cmp_wrapper]
    simp only [both_empty, hea, heb, Bool.and_self, if_pos]
    by_cases hna : sa.name = ""
    · rw [cmp_wrapper]
      simp only [isEmptyVal, hna, decide_True, if_pos]
      simp [placedBefore, pycmpStr_empty_left_ne_one sb.name]
    · by_cases hnb : sb.name = ""
      · rw [cmp_wrapper]
        simp only [isEmptyVal, hna, hnb, decide_True, decide_False]
        simp [placedBefore, pycmpStr_ne_empty_right sa.name hna]
      · rw [cmp_wrapper]
        simp [isEmptyVal, hna, hnb, pycmp, placedBefore, pycmpStr_pos_iff sa.name sb.name]

/-- Fixtures for C4's witness: two studies with the covariate "dose", one
empty-valued (`None`), one non-empty. -/
def covStudyA : Study := ⟨0, "alpha", none, [], [], [("dose", .vnone)]⟩

def covStudyB : Study := ⟨1, "beta", none, [], [], [("dose", .vstr "high")]⟩

/-- Witness for C4 at concrete studies: the empty-valued study sorts after the
non-empty one in both directions. -/
theorem cmp_studies_covariate_empty_sort_witness :
    cmp_studies "dose" true covStudyA covStudyB = some (-1) ∧
    cmp_studies "dose" true covStudyB covStudyA = some 1 ∧
    placedBefore true (-1) = false ∧ placedBefore true 1 = true :=
  (cmp_studies_covariate_empty_sort "dose" (by decide) (by decide) covStudyA covStudyB
    .vnone (.vstr "high") (by decide) (by decide)).1 (by decide) (by decide)

/-! ## Error-shape lemmas: the rename path raises only `KeyError` -/

theorem rename_group_err (u : MetaAnalyticUnit) (o n : String) :
    (u.rename_group o n).2 = none ∨ (u.rename_group o n).2 = some .keyError := by
  rw [MetaAnalyticUnit.rename_group]
  cases dlookup u.tx_groups o <;> simp

theorem renameFollowUpsLoop_err (o n : String) (fus : List (String × MetaAnalyticUnit)) :
    (renameFollowUpsLoop o n fus).2 = none ∨
    (renameFollowUpsLoop o n fus).2 = some .keyError := by
  induction fus with
  | nil => simp [renameFollowUpsLoop]
  | cons hd tl ih =>
    obtain ⟨fu, u⟩ := hd
    rw [renameFollowUpsLoop]
    rcases h : u.rename_group o n with ⟨u', e⟩
    have h2 := rename_group_err u o n
    rw [h] at h2
    cases e with
    | none => simpa using ih
    | some pe =>
      simp at h2 ⊢
      exact h2

theorem renameOutcomesLoop_err (o n : String)
    (m : List (String × List (String × MetaAnalyticUnit))) :
    (renameOutcomesLoop o n m).2 = none ∨
    (renameOutcomesLoop o n m).2 = some .keyError := by
  induction m with
  | nil => simp [renameOutcomesLoop]
  | cons hd tl ih =>
    obtain ⟨oname, fus⟩ := hd
    rw [renameOutcomesLoop]
    rcases h : renameFollowUpsLoop o n fus with ⟨fus', e⟩
    have h2 := renameFollowUpsLoop_err o n fus
    rw [h] at h2
    cases e with
    | none => simpa using ih
    | some pe =>
      simp at h2 ⊢
      exact h2

theorem studyRenameAll_err (o n : String) (st : Study) :
    (studyRenameAll o n st).2 = none ∨ (studyRenameAll o n st).2 = some .keyError := by
  rw [studyRenameAll]
  rcases h : renameOutcomesLoop o n st.outcomes_to_follow_ups with ⟨m, e⟩
  have h2 := renameOutcomesLoop_err o n st.outcomes_to_follow_ups
  rw [h] at h2
  simpa using h2

theorem studyRenameScoped_err (o fu old_name new_name : String) (st : Study) :
    (studyRenameScoped o fu old_name new_name st).2 = none ∨
    (studyRenameScoped o fu old_name new_name st).2 = some .keyError := by
  unfold studyRenameScoped
  split
  · simp
  · split
    · simp
    · rename_i u hu
      split
      · simp
      · rename_i fst e heq
        have h4 := rename_group_err u old_name new_name
        rw [heq] at h4
        simpa using h4

theorem studiesLoop_err (f : Study → Study × Option PyErr)
    (hf : ∀ st, (f st).2 = none ∨ (f st).2 = some .keyError) (l : List Study) :
    (studiesLoop f l).2 = none ∨ (studiesLoop f l).2 = some .keyError := by
  induction l with
  | nil => simp [studiesLoop]
  | cons st rest ih =>
    rw [studiesLoop]
    rcases h : f st with ⟨st', e⟩
    have h2 := hf st
    rw [h] at h2
    cases e with
    | none => simpa using ih
    | some pe =>
      simp at h2 ⊢
      exact h2

/-! ## C5 -/

/-- C5: `change_group_name` raises the invalid-argument `Exception` — with the
dataset unchanged — exactly when one of outcome/follow-up is specified and the
other omitted; when both are specified or both omitted no such `Exception` is
ever raised (the body can only raise `KeyError`). -/
theorem change_group_name_argument_check (ds : Dataset) (old_name new_name : String)
    (outcome follow_up : Option String) :
    (((outcome.isNone && follow_up.isSome) || (follow_up.isNone && outcome.isSome)) = true →
      ds.change_group_name old_name new_name outcome follow_up =
        (ds, some (.exception changeGroupNameExcMsg)))
    ∧ (((outcome.isNone && follow_up.isSome) || (follow_up.isNone && outcome.isSome)) = false →
      ∀ msg, (ds.change_group_name old_name new_name outcome follow_up).2 ≠
        some (.exception msg)) := by
  have herr : ∀ (msg : String) (f : Study → Study × Option PyErr),
      (∀ st, (f st).2 = none ∨ (f st).2 = some .keyError) →
      (match studiesLoop f ds.studies with
        | (sts, e) => ({ ds with studies := sts }, e)).2 ≠ some (PyErr.exception msg) := by
    intro msg f hf
    rcases hl : studiesLoop f ds.studies with ⟨sts, e⟩
    have h2 := studiesLoop_err f hf ds.studies
    rw [hl] at h2
    simp at h2 ⊢
    rcases h2 with h2 | h2 <;> simp [h2]
  constructor
  · intro h
    cases outcome with
    | none =>
      cases follow_up with
      | none => simp at h
      | some fu =>
        rw [Dataset.change_group_name, if_pos (by simp)]
        exact fun o fu1 hh _ => Option.noConfusion hh
    | some o =>
      cases follow_up with
      | none =>
        rw [Dataset.change_group_name, if_pos (by simp)]
        exact fun o1 fu _ hh => Option.noConfusion hh
      | some fu => simp at h
  · intro h msg
    cases outcome with
    | none =>
      cases follow_up with
      | none =>
        rw [Dataset.change_group_name, if_neg (by simp)]
        exact herr msg _ (fun st => studyRenameAll_err old_name new_name st)
        exact fun o fu hh _ => Option.noConfusion hh
      | some fu => simp at h
    | some o =>
      cases follow_up with
      | none => simp at h
      | some fu =>
        rw [Dataset.change_group_name, if_neg (by simp)]
        exact herr msg _ (fun st => studyRenameScoped_err o fu old_name new_name st)

/-- Witness for C5: a concrete invalid call (outcome given, follow-up omitted)
raises the invalid-argument `Exception` with the dataset unchanged, and a
concrete valid call does not raise it. -/
theorem change_group_name_argument_check_witness :
    (Dataset.change_group_name ⟨none, none, [], [], [], ""⟩ "a" "b" (some "O") none =
      (⟨none, none, [], [], [], ""⟩, some (.exception changeGroupNameExcMsg)))
    ∧ ∀ msg, (Dataset.change_group_name ⟨none, none, [], [], [], ""⟩ "a" "b" none none).2 ≠
        some (.exception msg) :=
  ⟨(change_group_name_argument_check ⟨none, none, [], [], [], ""⟩ "a" "b" (some "O") none).1 (by decide),
   (change_group_name_argument_check ⟨none, none, [], [], [], ""⟩ "a" "b" none none).2 (by decide)⟩

/-! ## C6 -/

/-- C6: `Study.add_outcome` raises the duplicate-entity `Exception` when the
study already contains an outcome of that name (leaving the study unchanged),
and `Dataset.add_outcome` therefore propagates that `Exception` whenever the
outcome name is already among the dataset's outcome names. -/
theorem add_duplicate_outcome_fails :
    (∀ (st : Study) (o : Outcome) (fu : String) (gn : Option (List String)),
      dhasKey st.outcomes_to_follow_ups o.name = true →
      st.add_outcome o fu gn = (st, some (.exception (dupOutcomeMsg o.name))))
    ∧ ∀ (ds : Dataset) (o : Outcome),
      o.name ∈ ds.get_outcome_names →
      (ds.add_outcome o).2 = some (.exception (dupOutcomeMsg o.name)) := by
  have hstudy : ∀ (st : Study) (o : Outcome) (fu : String) (gn : Option (List String)),
      dhasKey st.outcomes_to_follow_ups o.name = true →
      st.add_outcome o fu gn = (st, some (.exception (dupOutcomeMsg o.name))) := by
    intro st o fu gn h
    rw [Study.add_outcome, if_pos h]
  refine ⟨hstudy, ?_⟩
  intro ds o hmem
  cases hst : ds.studies with
  | nil =>
    rw [Dataset.get_outcome_names, hst] at hmem
    cases hmem
  | cons st0 rest =>
    rw [Dataset.get_outcome_names, hst, mem_pySort] at hmem
    have hk : dhasKey st0.outcomes_to_follow_ups o.name = true :=
      (dhasKey_iff_mem_dkeys _ _).mpr hmem
    rw [Dataset.add_outcome]
    simp only [hst]
    rw [studiesLoop, hstudy st0 o "baseline" _ hk]

/-- Fixtures for C6's witness: a study (and dataset) already carrying
outcome "O". -/
def dupStudy : Study := ⟨0, "s", none, [("O", [("baseline", emptyUnit)])], [outcomeO], []⟩

def dupDS : Dataset := ⟨none, none, [dupStudy], [("O", [(0, "baseline")])], [], ""⟩

/-- Witness for C6 at a concrete study and dataset. -/
theorem add_duplicate_outcome_fails_witness :
    dupStudy.add_outcome outcomeO "baseline" none =
      (dupStudy, some (.exception (dupOutcomeMsg outcomeO.name)))
    ∧ (dupDS.add_outcome outcomeO).2 = some (.exception (dupOutcomeMsg outcomeO.name)) :=
  ⟨add_duplicate_outcome_fails.1 dupStudy outcomeO "baseline" none (by decide),
   add_duplicate_outcome_fails.2 dupDS outcomeO (by decide)⟩

/-! ## Shared lemmas about the study loop and unit construction -/

/-- A `studiesLoop` whose body succeeds on every study maps it over the list. -/
theorem studiesLoop_map (f : Study → Study × Option PyErr) (g : Study → Study)
    (l : List Study) (h : ∀ st ∈ l, f st = (g st, none)) :
    studiesLoop f l = (l.map g, none) := by
  induction l with
  | nil => rfl
  | cons st rest ih =>
    rw [studiesLoop, h st (List.mem_cons_self st rest),
      ih (fun s hs => h s (List.mem_cons_of_mem _ hs))]
    rfl

/-- `MetaAnalyticUnit.__init__` with `raw_data=None` always succeeds. -/
theorem initMAUnit_none_isSome (o : Outcome) (gn : Option (List String)) :
    ∃ u, initMAUnit o none gn = some u := by
  rw [initMAUnit]
  simp

/-- The outcome object found by `get_outcome_obj` carries the requested name. -/
theorem get_outcome_obj_name (ds : Dataset) (n : String) (ob : Outcome)
    (h : ds.get_outcome_obj n = some ob) : ob.name = n := by
  rw [Dataset.get_outcome_obj] at h
  obtain ⟨st, hst, hf⟩ := List.exists_of_findSome?_eq_some h
  rw [Study.get_outcome] at hf
  have := List.find?_some hf
  simpa using this

/-- `get_outcome_obj` only succeeds on a non-empty study list. -/
theorem get_outcome_obj_studies_ne_nil (ds : Dataset) (n : String) (ob : Outcome)
    (h : ds.get_outcome_obj n = some ob) : ds.studies ≠ [] := by
  rw [Dataset.get_outcome_obj] at h
  obtain ⟨st, hst, _⟩ := List.exists_of_findSome?_eq_some h
  exact List.ne_nil_of_mem hst

/-! ## C7 -/

/-- C7: on an outcome whose only existing follow-up index is 0, spec-modelled
`TwoWayDict` in hand, `add_follow_up_to_outcome` keys the new follow-up name
by index 1 in the outcome's index-to-name mapping, and the new name is
afterwards an element of `get_follow_up_names_for_outcome`. -/
theorem add_follow_up_to_outcome_assigns_index_one (ds : Dataset)
    (outcome_name follow_up_name fu0 : String) (ob : Outcome)
    (hob : ds.get_outcome_obj outcome_name = some ob)
    (htwd : dlookup ds.outcome_names_to_follow_ups outcome_name = some [(0, fu0)])
    (hstud : ∀ st ∈ ds.studies, dhasKey st.outcomes_to_follow_ups outcome_name = true) :
    (ds.add_follow_up_to_outcome outcome_name follow_up_name).2 = none ∧
    dlookup (ds.add_follow_up_to_outcome outcome_name follow_up_name).1.outcome_names_to_follow_ups
      outcome_name = some [(0, fu0), (1, follow_up_name)] ∧
    follow_up_name ∈
      (ds.add_follow_up_to_outcome outcome_name follow_up_name).1.get_follow_up_names_for_outcome
        outcome_name := by
  have hname : ob.name = outcome_name := get_outcome_obj_name ds outcome_name ob hob
  have hnil : ds.studies ≠ [] := get_outcome_obj_studies_ne_nil ds outcome_name ob hob
  obtain ⟨u, hu⟩ := initMAUnit_none_isSome ob
    (if ds.get_group_names = [] then none else some ds.get_group_names)
  have hsteps : ∀ st ∈ ds.studies,
      st.add_follow_up_to_outcome ob follow_up_name
        (if ds.get_group_names = [] then none else some ds.get_group_names) =
      ((fun st => { st with outcomes_to_follow_ups := dset st.outcomes_to_follow_ups outcome_name (dset ((dlookup st.outcomes_to_follow_ups outcome_name).getD []) follow_up_name u) }) st, none) := by
    intro st hst
    have hk := hstud st hst
    rw [dhasKey] at hk
    obtain ⟨fus, hfus⟩ := Option.isSome_iff_exists.mp hk
    rw [Study.add_follow_up_to_outcome, hu, hname, hfus]
    simp [hfus]
  have hloop := studiesLoop_map _ _ ds.studies hsteps
  have hmain : ds.add_follow_up_to_outcome outcome_name follow_up_name =
      ({ ds with
          outcome_names_to_follow_ups := dset ds.outcome_names_to_follow_ups outcome_name (dset [(0, fu0)] 1 follow_up_name),
          studies := ds.studies.map (fun st => { st with outcomes_to_follow_ups := dset st.outcomes_to_follow_ups outcome_name (dset ((dlookup st.outcomes_to_follow_ups outcome_name).getD []) follow_up_name u) }) }, none) := by
    rw [Dataset.add_follow_up_to_outcome, hob]
    simp only [hname, htwd]
    rw [if_neg (by simp)]
    simp only [dkeys, List.map_cons, List.map_nil, List.foldl_cons, List.foldl_nil,
      Nat.max_self, Nat.zero_max, Nat.max_zero]
    rw [hloop]
  rw [hmain]
  refine ⟨rfl, ?_, ?_⟩
  · rw [dlookup_dset_self]
    simp [dset]
  · obtain ⟨st0, rest, hst0⟩ := List.exists_cons_of_ne_nil hnil
    rw [Dataset.get_follow_up_names_for_outcome]
    rw [mem_pySet]
    rw [List.mem_flatMap]
    refine ⟨{ st0 with outcomes_to_follow_ups := dset st0.outcomes_to_follow_ups outcome_name (dset ((dlookup st0.outcomes_to_follow_ups outcome_name).getD []) follow_up_name u) }, ?_, ?_⟩
    · simp only [hst0, List.map_cons]
      exact List.mem_cons_self _ _
    · simp only [dlookup_dset_self]
      rw [mem_dkeys_dset]
      exact Or.inr rfl

/-- Witness for C7: adding follow-up "week4" to outcome "O" of a concrete
dataset whose only follow-up index is 0. -/
theorem add_follow_up_to_outcome_assigns_index_one_witness :
    (dupDS.add_follow_up_to_outcome "O" "week4").2 = none ∧
    dlookup (dupDS.add_follow_up_to_outcome "O" "week4").1.outcome_names_to_follow_ups "O" =
      some [(0, "baseline"), (1, "week4")] ∧
    "week4" ∈ (dupDS.add_follow_up_to_outcome "O" "week4").1.get_follow_up_names_for_outcome "O" :=
  add_follow_up_to_outcome_assigns_index_one dupDS "O" "week4" "baseline" outcomeO
    (by decide) (by decide) (by decide)

/-! ## C3 -/

theorem dhasKey_false_lookup_none {α β : Type} [DecidableEq α] (d : List (α × β)) (k : α)
    (h : dhasKey d k = false) : dlookup d k = none := by
  cases hl : dlookup d k with
  | none => rfl
  | some v =>
    rw [dhasKey, hl] at h
    simp at h

theorem removeFirst_append_singleton (o : Outcome) (pre : List Outcome)
    (h : ∀ x ∈ pre, x ≠ o) : removeFirst o (pre ++ [o]) = pre := by
  induction pre with
  | nil => simp [removeFirst]
  | cons hd tl ih =>
    rw [List.cons_append, removeFirst, if_neg (h hd (List.mem_cons_self _ _)),
      ih (fun x hx => h x (List.mem_cons_of_mem _ hx))]

theorem removeOutcomesLoop_of_ge (name : String) (lst : List Outcome) (i : Nat)
    (h : lst.length ≤ i) : removeOutcomesLoop name lst i = lst := by
  rw [removeOutcomesLoop]
  rw [dif_neg (by omega)]

/-- The remove-while-iterating loop started anywhere inside the clean prefix
removes exactly the appended matching outcome. -/
theorem removeOutcomesLoop_append_singleton (name : String) (o : Outcome)
    (ho : o.name = name) (pre : List Outcome)
    (hpre : ∀ x ∈ pre, x.name ≠ name) :
    ∀ i, i ≤ pre.length → removeOutcomesLoop name (pre ++ [o]) i = pre := by
  have key : ∀ n i, i ≤ pre.length → pre.length - i = n →
      removeOutcomesLoop name (pre ++ [o]) i = pre := by
    intro n
    induction n with
    | zero =>
      intro i hi h0
      have hieq : i = pre.length := by omega
      subst hieq
      rw [removeOutcomesLoop]
      have hlt : pre.length < (pre ++ [o]).length := by simp
      rw [dif_pos hlt]
      have hget : (pre ++ [o])[pre.length] = o := by
        simp
      rw [hget, if_pos ho,
        removeFirst_append_singleton o pre
          (fun x hx hxo => hpre x hx (by rw [hxo, ho]))]
      exact removeOutcomesLoop_of_ge name pre (pre.length + 1) (by omega)
    | succ n ih =>
      intro i hi hn
      have hlt : i < pre.length := by omega
      rw [removeOutcomesLoop]
      have hlt' : i < (pre ++ [o]).length := by
        rw [List.length_append]
        omega
      rw [dif_pos hlt']
      have hget : (pre ++ [o])[i] = pre[i] := List.getElem_append_left hlt
      rw [hget, if_neg (hpre pre[i] (List.getElem_mem hlt))]
      exact ih (i + 1) (by omega) (by omega)
  intro i hi
  exact key (pre.length - i) i hi rfl

/-- A `studiesLoop` over a mapped study list whose body succeeds everywhere. -/
theorem studiesLoop_map_of_map (f : Study → Study × Option PyErr) (g g' : Study → Study)
    (l : List Study) (h : ∀ st ∈ l, f (g st) = (g' st, none)) :
    studiesLoop f (l.map g) = (l.map g', none) := by
  induction l with
  | nil => rfl
  | cons st rest ih =>
    rw [List.map_cons, studiesLoop, h st (List.mem_cons_self st rest),
      ih (fun s hs => h s (List.mem_cons_of_mem _ hs))]
    rfl

/-- C3: adding a fresh outcome and then removing it restores the dataset's
outcome-name-to-follow-ups mapping and every study's outcome list and
outcomes-to-follow-ups mapping, with neither call raising. -/
theorem add_remove_outcome_roundtrip (ds : Dataset) (o : Outcome)
    (h1 : dlookup ds.outcome_names_to_follow_ups o.name = none)
    (h2 : ∀ st ∈ ds.studies, dhasKey st.outcomes_to_follow_ups o.name = false)
    (h3 : ∀ st ∈ ds.studies, ∀ x ∈ st.outcomes, x.name ≠ o.name) :
    (ds.add_outcome o).2 = none ∧
    ((ds.add_outcome o).1.remove_outcome o.name).2 = none ∧
    ((ds.add_outcome o).1.remove_outcome o.name).1.outcome_names_to_follow_ups =
      ds.outcome_names_to_follow_ups ∧
    ((ds.add_outcome o).1.remove_outcome o.name).1.studies.map Study.outcomes =
      ds.studies.map Study.outcomes ∧
    ((ds.add_outcome o).1.remove_outcome o.name).1.studies.map Study.outcomes_to_follow_ups =
      ds.studies.map Study.outcomes_to_follow_ups := by
  obtain ⟨u, hu⟩ := initMAUnit_none_isSome o
    (if ds.get_group_names = [] then none else some ds.get_group_names)
  have haddsteps : ∀ st ∈ ds.studies,
      st.add_outcome o "baseline"
        (if ds.get_group_names = [] then none else some ds.get_group_names) =
      ((fun st => { st with outcomes_to_follow_ups := dset st.outcomes_to_follow_ups o.name [("baseline", u)], outcomes := st.outcomes ++ [o] }) st, none) := by
    intro st hst
    rw [Study.add_outcome, if_neg (by simp [h2 st hst]), hu]
  have haddloop := studiesLoop_map _ _ ds.studies haddsteps
  have hadd : ds.add_outcome o =
      ({ ds with
          outcome_names_to_follow_ups := dset ds.outcome_names_to_follow_ups o.name [(0, "baseline")],
          studies := ds.studies.map (fun st => { st with outcomes_to_follow_ups := dset st.outcomes_to_follow_ups o.name [("baseline", u)], outcomes := st.outcomes ++ [o] }) }, none) := by
    rw [Dataset.add_outcome]
    simp only []
    rw [haddloop]
  have hremsteps : ∀ st ∈ ds.studies,
      Study.remove_outcome
        ((fun st => { st with outcomes_to_follow_ups := dset st.outcomes_to_follow_ups o.name [("baseline", u)], outcomes := st.outcomes ++ [o] }) st) o.name =
      (st, none) := by
    intro st hst
    rw [Study.remove_outcome, if_pos (by simp [dhasKey])]
    have hm : dpop (dset st.outcomes_to_follow_ups o.name [("baseline", u)]) o.name =
        st.outcomes_to_follow_ups :=
      dpop_dset_of_not_mem _ _ _ (dhasKey_false_lookup_none _ _ (h2 st hst))
    have houts : removeOutcomesLoop o.name (st.outcomes ++ [o]) 0 = st.outcomes :=
      removeOutcomesLoop_append_singleton o.name o rfl st.outcomes (h3 st hst) 0 (Nat.zero_le _)
    simp only [hm, houts]
  have hremloop := studiesLoop_map_of_map (fun st => st.remove_outcome o.name) _
    (fun st => st) ds.studies hremsteps
  have hrem : ((ds.add_outcome o).1).remove_outcome o.name =
      ({ ds with
          outcome_names_to_follow_ups := ds.outcome_names_to_follow_ups,
          studies := ds.studies.map (fun st => st) }, none) := by
    rw [hadd]
    rw [Dataset.remove_outcome]
    rw [if_pos (by simp [dhasKey])]
    simp only []
    rw [hremloop]
    rw [dpop_dset_of_not_mem _ _ _ h1]
  rw [hrem, hadd]
  refine ⟨rfl, rfl, rfl, ?_, ?_⟩ <;> simp

/-- Witness for C3: adding a fresh binary outcome "B2" to a concrete dataset
and removing it restores the prior state. -/
theorem add_remove_outcome_roundtrip_witness :
    (dupDS.add_outcome ⟨"B2", BINARY⟩).2 = none ∧
    ((dupDS.add_outcome ⟨"B2", BINARY⟩).1.remove_outcome (Outcome.name ⟨"B2", BINARY⟩)).2 = none ∧
    ((dupDS.add_outcome ⟨"B2", BINARY⟩).1.remove_outcome (Outcome.name ⟨"B2", BINARY⟩)).1.outcome_names_to_follow_ups =
      dupDS.outcome_names_to_follow_ups ∧
    ((dupDS.add_outcome ⟨"B2", BINARY⟩).1.remove_outcome (Outcome.name ⟨"B2", BINARY⟩)).1.studies.map Study.outcomes =
      dupDS.studies.map Study.outcomes ∧
    ((dupDS.add_outcome ⟨"B2", BINARY⟩).1.remove_outcome (Outcome.name ⟨"B2", BINARY⟩)).1.studies.map Study.outcomes_to_follow_ups =
      dupDS.studies.map Study.outcomes_to_follow_ups :=
  add_remove_outcome_roundtrip dupDS ⟨"B2", BINARY⟩ (by decide) (by decide) (by decide)

/-! ## C2 -/

theorem dkeys_dset_nodup {α β : Type} [DecidableEq α] (d : List (α × β)) (k : α) (v : β)
    (h : (dkeys d).Nodup) : (dkeys (dset d k v)).Nodup := by
  induction d with
  | nil => simp [dset, dkeys]
  | cons hd tl ih =>
    obtain ⟨k₀, v₀⟩ := hd
    rw [dkeys, List.map_cons, List.nodup_cons] at h
    by_cases hk : k₀ = k
    · rw [dset, if_pos hk]
      show ((k₀, v).1 :: dkeys tl).Nodup
      rw [List.nodup_cons]
      exact ⟨h.1, h.2⟩
    · rw [dset, if_neg hk]
      show ((k₀, v₀).1 :: dkeys (dset tl k v)).Nodup
      rw [List.nodup_cons]
      refine ⟨?_, ih h.2⟩
      intro hmem
      rcases (mem_dkeys_dset tl k k₀ v).mp hmem with hm | hm
      · exact h.1 hm
      · exact hk hm

/-- What a successful rename does to one unit: the new name now holds the old
group's stored value (hence the same raw-data list), the old name is gone, and
every other group is untouched. -/
def RenamedUnit (old_name new_name : String) (u u' : MetaAnalyticUnit) : Prop :=
  dlookup u'.tx_groups new_name = dlookup u.tx_groups old_name ∧
  dlookup u'.tx_groups old_name = none ∧
  ∀ k, k ≠ old_name → k ≠ new_name → dlookup u'.tx_groups k = dlookup u.tx_groups k

theorem rename_group_spec (u : MetaAnalyticUnit) (old_name new_name : String)
    (hne : old_name ≠ new_name) (hnd : (dkeys u.tx_groups).Nodup)
    (hk : dhasKey u.tx_groups old_name = true) :
    ∃ u', u.rename_group old_name new_name = (u', none) ∧
      RenamedUnit old_name new_name u u' := by
  rw [dhasKey] at hk
  obtain ⟨g, hg⟩ := Option.isSome_iff_exists.mp hk
  refine ⟨{ u with tx_groups := dpop (dset u.tx_groups new_name g) old_name },
    by rw [MetaAnalyticUnit.rename_group, hg], ?_, ?_, ?_⟩
  · show dlookup (dpop (dset u.tx_groups new_name g) old_name) new_name = _
    rw [dlookup_dpop_ne _ _ _ (Ne.symm hne), dlookup_dset_self, hg]
  · exact dlookup_dpop_self _ _ (dkeys_dset_nodup _ _ _ hnd)
  · intro k hko hkn
    show dlookup (dpop (dset u.tx_groups new_name g) old_name) k = _
    rw [dlookup_dpop_ne _ _ _ hko, dlookup_dset_ne _ _ _ _ hkn]

theorem renameFollowUpsLoop_spec (old_name new_name : String)
    (hne : old_name ≠ new_name) (fus : List (String × MetaAnalyticUnit))
    (h : ∀ q ∈ fus, (dkeys q.2.tx_groups).Nodup ∧ dhasKey q.2.tx_groups old_name = true) :
    ∃ fus', renameFollowUpsLoop old_name new_name fus = (fus', none) ∧
      List.Forall₂ (fun q q' => q'.1 = q.1 ∧ RenamedUnit old_name new_name q.2 q'.2) fus fus' := by
  induction fus with
  | nil => exact ⟨[], rfl, List.Forall₂.nil⟩
  | cons hd tl ih =>
    obtain ⟨fu, u⟩ := hd
    obtain ⟨hnd, hk⟩ := h (fu, u) (List.mem_cons_self _ _)
    obtain ⟨u', hren, hR⟩ := rename_group_spec u old_name new_name hne hnd hk
    obtain ⟨tl', htl, hf⟩ := ih (fun q hq => h q (List.mem_cons_of_mem _ hq))
    refine ⟨(fu, u') :: tl', ?_, List.Forall₂.cons ⟨rfl, hR⟩ hf⟩
    rw [renameFollowUpsLoop, hren, htl]

theorem renameOutcomesLoop_spec (old_name new_name : String)
    (hne : old_name ≠ new_name) (m : List (String × List (String × MetaAnalyticUnit)))
    (h : ∀ p ∈ m, ∀ q ∈ p.2,
      (dkeys q.2.tx_groups).Nodup ∧ dhasKey q.2.tx_groups old_name = true) :
    ∃ m', renameOutcomesLoop old_name new_name m = (m', none) ∧
      List.Forall₂ (fun p p' => p'.1 = p.1 ∧
        List.Forall₂ (fun q q' => q'.1 = q.1 ∧ RenamedUnit old_name new_name q.2 q'.2) p.2 p'.2)
        m m' := by
  induction m with
  | nil => exact ⟨[], rfl, List.Forall₂.nil⟩
  | cons hd tl ih =>
    obtain ⟨oname, fus⟩ := hd
    obtain ⟨fus', hfus, hffa⟩ := renameFollowUpsLoop_spec old_name new_name hne fus
      (fun q hq => h (oname, fus) (List.mem_cons_self _ _) q hq)
    obtain ⟨tl', htl, hf⟩ := ih (fun p hp => h p (List.mem_cons_of_mem _ hp))
    refine ⟨(oname, fus') :: tl', ?_, List.Forall₂.cons ⟨rfl, hffa⟩ hf⟩
    rw [renameOutcomesLoop, hfus, htl]

theorem studiesLoop_spec (f : Study → Study × Option PyErr) (R : Study → Study → Prop)
    (l : List Study) (h : ∀ st ∈ l, ∃ st', f st = (st', none) ∧ R st st') :
    ∃ l', studiesLoop f l = (l', none) ∧ List.Forall₂ R l l' := by
  induction l with
  | nil => exact ⟨[], rfl, List.Forall₂.nil⟩
  | cons st rest ih =>
    obtain ⟨st', hst, hR⟩ := h st (List.mem_cons_self _ _)
    obtain ⟨rest', hrest, hf⟩ := ih (fun s hs => h s (List.mem_cons_of_mem _ hs))
    refine ⟨st' :: rest', ?_, List.Forall₂.cons hR hf⟩
    rw [studiesLoop, hst, hrest]

/-- C2 (amended): provided `old ≠ new` and every unit of every study contains
the old group (with duplicate-free group keys), the unscoped
`change_group_name(old, new)` succeeds and renames the group identically in
every study, outcome and follow-up: position for position, the new name holds
the old group's stored value (raw data preserved), the old name is gone, and
all other groups are untouched. -/
theorem change_group_name_renames_everywhere (ds : Dataset) (old_name new_name : String)
    (hne : old_name ≠ new_name)
    (hall : ∀ st ∈ ds.studies, ∀ p ∈ st.outcomes_to_follow_ups, ∀ q ∈ p.2,
      (dkeys q.2.tx_groups).Nodup ∧ dhasKey q.2.tx_groups old_name = true) :
    ∃ sts', ds.change_group_name old_name new_name none none =
        ({ ds with studies := sts' }, none) ∧
      List.Forall₂ (fun st st' =>
        List.Forall₂ (fun p p' => p'.1 = p.1 ∧
          List.Forall₂ (fun q q' => q'.1 = q.1 ∧ RenamedUnit old_name new_name q.2 q'.2) p.2 p'.2)
          st.outcomes_to_follow_ups st'.outcomes_to_follow_ups)
        ds.studies sts' := by
  have hstud : ∀ st ∈ ds.studies, ∃ st', studyRenameAll old_name new_name st = (st', none) ∧
      List.Forall₂ (fun p p' => p'.1 = p.1 ∧
        List.Forall₂ (fun q q' => q'.1 = q.1 ∧ RenamedUnit old_name new_name q.2 q'.2) p.2 p'.2)
        st.outcomes_to_follow_ups st'.outcomes_to_follow_ups := by
    intro st hst
    obtain ⟨m', hm, hf⟩ := renameOutcomesLoop_spec old_name new_name hne
      st.outcomes_to_follow_ups (fun p hp q hq => hall st hst p hp q hq)
    exact ⟨{ st with outcomes_to_follow_ups := m' }, by rw [studyRenameAll, hm], hf⟩
  obtain ⟨sts', hloop, hfa⟩ := studiesLoop_spec _ _ ds.studies hstud
  refine ⟨sts', ?_, hfa⟩
  rw [Dataset.change_group_name, if_neg (by simp)]
  · simp only [hloop]
  · exact fun o fu hh _ => Option.noConfusion hh

/-- Fixtures for C2: a unit that lacks the group "old" and one that has it. -/
def unitNoOld : MetaAnalyticUnit :=
  { outcome := outcomeO, raw_data_length := 2, effects_dict := initialEffectsDict BINARY,
    tx_groups := [("g", ⟨0, "g", [.vstr "", .vstr ""]⟩)] }

def unitWithOld : MetaAnalyticUnit :=
  { outcome := outcomeO, raw_data_length := 2, effects_dict := initialEffectsDict BINARY,
    tx_groups := [("old", ⟨0, "old", [.vint 1, .vint 2]⟩)] }

def studyNoOld : Study := ⟨0, "A", none, [("O", [("baseline", unitNoOld)])], [outcomeO], []⟩

def studyWithOld : Study := ⟨1, "B", none, [("O", [("baseline", unitWithOld)])], [outcomeO], []⟩

def dsC2x : Dataset :=
  ⟨none, none, [studyNoOld, studyWithOld], [("O", [(0, "baseline")])], [], ""⟩

/-- C2 counterexample: in a dataset whose first study's unit lacks the group
"old" while the second study's unit contains it, the unscoped rename raises a
`KeyError` and returns with the dataset unchanged — the unit that contained
"old" keeps it and never receives "new", contradicting "renames the group
identically in every study, outcome, and follow-up that contained it". -/
theorem change_group_name_counterexample :
    dsC2x.change_group_name "old" "new" none none = (dsC2x, some .keyError) ∧
    dlookup unitWithOld.tx_groups "old" = some ⟨0, "old", [.vint 1, .vint 2]⟩ ∧
    dlookup unitWithOld.tx_groups "new" = none := by
  decide

/-- A dataset on which the amended C2 applies: its only unit contains "old". -/
def dsC2w : Dataset := ⟨none, none, [studyWithOld], [("O", [(0, "baseline")])], [], ""⟩

/-- Witness for the amended C2 at a concrete dataset. -/
theorem change_group_name_renames_everywhere_witness :
    ∃ sts', dsC2w.change_group_name "old" "new" none none =
        ({ dsC2w with studies := sts' }, none) ∧
      List.Forall₂ (fun st st' =>
        List.Forall₂ (fun p p' => p'.1 = p.1 ∧
          List.Forall₂ (fun q q' => q'.1 = q.1 ∧ RenamedUnit "old" "new" q.2 q'.2) p.2 p'.2)
          st.outcomes_to_follow_ups st'.outcomes_to_follow_ups)
        dsC2w.studies sts' :=
  change_group_name_renames_everywhere dsC2w "old" "new" (by decide)
    (by
      intro st hst p hp q hq
      simp only [dsC2w, studyWithOld] at hst
      simp at hst
      subst hst
      simp at hp
      subst hp
      simp at hq
      subst hq
      constructor <;> decide)

/-! ## C1: lemmas about the network edge check and its loops -/

theorem mem_dkeys_of_dlookup {α β : Type} [DecidableEq α] (d : List (α × β)) (k : α) (v : β)
    (h : dlookup d k = some v) : k ∈ dkeys d := by
  by_contra hmem
  rw [← dlookup_eq_none_iff] at hmem
  rw [h] at hmem
  cases hmem

/-- The pair edge check: it holds exactly when both groups are present and
neither raw-data row contains the empty-string cell. -/
theorem ma_unit_has_edge_pair (u : MetaAnalyticUnit) (a b : String) :
    ma_unit_has_edge_between_groups u [a, b] = some true ↔
    (∃ tga, dlookup u.tx_groups a = some tga ∧ PyVal.vstr "" ∉ tga.raw_data) ∧
    (∃ tgb, dlookup u.tx_groups b = some tgb ∧ PyVal.vstr "" ∉ tgb.raw_data) := by
  rcases ha : dlookup u.tx_groups a with _ | tga
  · simp [ma_unit_has_edge_between_groups, ha]
  · rcases hb : dlookup u.tx_groups b with _ | tgb
    · by_cases hma : PyVal.vstr "" ∈ tga.raw_data <;>
        simp [ma_unit_has_edge_between_groups, ha, hb, hma]
    · by_cases hma : PyVal.vstr "" ∈ tga.raw_data <;>
        by_cases hmb : PyVal.vstr "" ∈ tgb.raw_data <;>
          simp [ma_unit_has_edge_between_groups, ha, hb, hma, hmb]

theorem ma_unit_has_edge_pair_symm (u : MetaAnalyticUnit) (a b : String) :
    ma_unit_has_edge_between_groups u [a, b] = some true ↔
    ma_unit_has_edge_between_groups u [b, a] = some true := by
  rw [ma_unit_has_edge_pair, ma_unit_has_edge_pair]
  tauto

theorem ma_unit_has_edge_pair_isSome (u : MetaAnalyticUnit) (a b : String)
    (ha : dhasKey u.tx_groups a = true) (hb : dhasKey u.tx_groups b = true) :
    ∃ v, ma_unit_has_edge_between_groups u [a, b] = some v := by
  rw [dhasKey] at ha hb
  obtain ⟨tga, hga⟩ := Option.isSome_iff_exists.mp ha
  obtain ⟨tgb, hgb⟩ := Option.isSome_iff_exists.mp hb
  by_cases hma : PyVal.vstr "" ∈ tga.raw_data
  · exact ⟨false, by simp [ma_unit_has_edge_between_groups, hga, hma]⟩
  · by_cases hmb : PyVal.vstr "" ∈ tgb.raw_data
    · exact ⟨false, by simp [ma_unit_has_edge_between_groups, hga, hgb, hma, hmb]⟩
    · exact ⟨true, by simp [ma_unit_has_edge_between_groups, hga, hgb, hma, hmb]⟩

theorem edgeLoopInner_some (u : MetaAnalyticUnit) (g1 : String) :
    ∀ (g2s : List String), dhasKey u.tx_groups g1 = true →
    (∀ g ∈ g2s, dhasKey u.tx_groups g = true) →
    ∀ adj, ∃ adj', edgeLoopInner u g1 g2s adj = some adj' := by
  intro g2s
  induction g2s with
  | nil => intro _ _ adj; exact ⟨adj, rfl⟩
  | cons g2 rest ih =>
    intro h1 h2 adj
    obtain ⟨bv, hbv⟩ := ma_unit_has_edge_pair_isSome u g1 g2 h1 (h2 g2 (List.mem_cons_self _ _))
    obtain ⟨adj', hadj'⟩ := ih h1 (fun g hg => h2 g (List.mem_cons_of_mem _ hg))
      (if bv = true ∧ (g1, g2) ∉ adj ∧ (g2, g1) ∉ adj then adj ++ [(g1, g2)] else adj)
    refine ⟨adj', ?_⟩
    rw [edgeLoopInner]
    simp only [hbv]
    exact hadj'

theorem edgeLoopInner_mono (u : MetaAnalyticUnit) (g1 : String) :
    ∀ (g2s : List String) (adj adj' : List (String × String)),
    edgeLoopInner u g1 g2s adj = some adj' → ∀ e ∈ adj, e ∈ adj' := by
  intro g2s
  induction g2s with
  | nil =>
    intro adj adj' h e he
    rw [edgeLoopInner] at h
    cases h
    exact he
  | cons g2 rest ih =>
    intro adj adj' h e he
    rw [edgeLoopInner] at h
    rcases hbv : ma_unit_has_edge_between_groups u [g1, g2] with _ | bv <;>
      simp only [hbv] at h
    · cases h
    · refine ih _ adj' h e ?_
      by_cases hc : bv = true ∧ (g1, g2) ∉ adj ∧ (g2, g1) ∉ adj
      · rw [if_pos hc]
        exact List.mem_append_left _ he
      · rw [if_neg hc]
        exact he

theorem edgeLoopInner_sound (u : MetaAnalyticUnit) (g1 : String) :
    ∀ (g2s : List String) (adj adj' : List (String × String)),
    edgeLoopInner u g1 g2s adj = some adj' →
    ∀ e ∈ adj', e ∈ adj ∨ ma_unit_has_edge_between_groups u [e.1, e.2] = some true := by
  intro g2s
  induction g2s with
  | nil =>
    intro adj adj' h e he
    rw [edgeLoopInner] at h
    cases h
    exact Or.inl he
  | cons g2 rest ih =>
    intro adj adj' h e he
    rw [edgeLoopInner] at h
    rcases hbv : ma_unit_has_edge_between_groups u [g1, g2] with _ | bv <;>
      simp only [hbv] at h
    · cases h
    · rcases ih _ _ h e he with hin | hedge
      · by_cases hc : bv = true ∧ (g1, g2) ∉ adj ∧ (g2, g1) ∉ adj
        · rw [if_pos hc] at hin
          rcases List.mem_append.mp hin with hin | hin
          · exact Or.inl hin
          · right
            have he2 : e = (g1, g2) := by simpa using hin
            subst he2
            exact hc.1 ▸ hbv
        · rw [if_neg hc] at hin
          exact Or.inl hin
      · exact Or.inr hedge

theorem edgeLoopInner_complete (u : MetaAnalyticUnit) (g1 : String) :
    ∀ (g2s : List String) (adj adj' : List (String × String)),
    edgeLoopInner u g1 g2s adj = some adj' →
    ∀ g2 ∈ g2s, ma_unit_has_edge_between_groups u [g1, g2] = some true →
      (g1, g2) ∈ adj' ∨ (g2, g1) ∈ adj' := by
  intro g2s
  induction g2s with
  | nil =>
    intro adj adj' h g2 hg2 _
    cases hg2
  | cons g2h rest ih =>
    intro adj adj' h g2 hg2 hedge
    rw [edgeLoopInner] at h
    rcases hbv : ma_unit_has_edge_between_groups u [g1, g2h] with _ | bv <;>
      simp only [hbv] at h
    · cases h
    · rcases List.mem_cons.mp hg2 with rfl | hg2
      · have hbt : bv = true := by
          rw [hedge] at hbv
          exact (Option.some.inj hbv).symm
        by_cases hc : bv = true ∧ (g1, g2) ∉ adj ∧ (g2, g1) ∉ adj
        · rw [if_pos hc] at h
          exact Or.inl (edgeLoopInner_mono u g1 rest _ adj' h _
            (List.mem_append_right _ (List.mem_singleton.mpr rfl)))
        · have hin : (g1, g2) ∈ adj ∨ (g2, g1) ∈ adj := by
            by_contra hno
            push_neg at hno
            exact hc ⟨hbt, hno.1, hno.2⟩
          rw [if_neg hc] at h
          rcases hin with hh | hh
          · exact Or.inl (edgeLoopInner_mono u g1 rest _ adj' h _ hh)
          · exact Or.inr (edgeLoopInner_mono u g1 rest _ adj' h _ hh)
      · exact ih _ adj' h g2 hg2 hedge

theorem edgeLoopOuter_some (u : MetaAnalyticUnit) (group_names : List String)
    (hgn : ∀ g ∈ group_names, dhasKey u.tx_groups g = true) :
    ∀ (g1s : List String), (∀ g ∈ g1s, dhasKey u.tx_groups g = true) →
    ∀ nodes adj, ∃ r, edgeLoopOuter u group_names g1s nodes adj = some r := by
  intro g1s
  induction g1s with
  | nil => intro _ nodes adj; exact ⟨(nodes, adj), rfl⟩
  | cons g1 rest ih =>
    intro hg nodes adj
    obtain ⟨adj1, hadj1⟩ := edgeLoopInner_some u g1 (group_names.filter (fun g => g ≠ g1))
      (hg g1 (List.mem_cons_self _ _))
      (fun g hgf => hgn g (List.mem_of_mem_filter hgf)) adj
    obtain ⟨r, hr⟩ := ih (fun g hgr => hg g (List.mem_cons_of_mem _ hgr)) (nodes ++ [g1]) adj1
    refine ⟨r, ?_⟩
    rw [edgeLoopOuter]
    simp only [hadj1]
    exact hr

theorem edgeLoopOuter_mono (u : MetaAnalyticUnit) (group_names : List String) :
    ∀ (g1s : List String) (nodes : List String) (adj : List (String × String))
      (r : List String × List (String × String)),
    edgeLoopOuter u group_names g1s nodes adj = some r → ∀ e ∈ adj, e ∈ r.2 := by
  intro g1s
  induction g1s with
  | nil =>
    intro nodes adj r h e he
    rw [edgeLoopOuter] at h
    cases h
    exact he
  | cons g1 rest ih =>
    intro nodes adj r h e he
    rw [edgeLoopOuter] at h
    rcases hadj1 : edgeLoopInner u g1 (group_names.filter (fun g => g ≠ g1)) adj with _ | adj1 <;>
      simp only [hadj1] at h
    · cases h
    · exact ih _ adj1 r h e (edgeLoopInner_mono u g1 _ adj adj1 hadj1 e he)

theorem edgeLoopOuter_sound (u : MetaAnalyticUnit) (group_names : List String) :
    ∀ (g1s : List String) (nodes : List String) (adj : List (String × String))
      (r : List String × List (String × String)),
    edgeLoopOuter u group_names g1s nodes adj = some r →
    ∀ e ∈ r.2, e ∈ adj ∨ ma_unit_has_edge_between_groups u [e.1, e.2] = some true := by
  intro g1s
  induction g1s with
  | nil =>
    intro nodes adj r h e he
    rw [edgeLoopOuter] at h
    cases h
    exact Or.inl he
  | cons g1 rest ih =>
    intro nodes adj r h e he
    rw [edgeLoopOuter] at h
    rcases hadj1 : edgeLoopInner u g1 (group_names.filter (fun g => g ≠ g1)) adj with _ | adj1 <;>
      simp only [hadj1] at h
    · cases h
    · rcases ih _ adj1 r h e he with hin | hedge
      · exact edgeLoopInner_sound u g1 _ adj adj1 hadj1 e hin
      · exact Or.inr hedge

theorem edgeLoopOuter_complete (u : MetaAnalyticUnit) (group_names : List String) :
    ∀ (g1s : List String) (nodes : List String) (adj : List (String × String))
      (r : List String × List (String × String)),
    edgeLoopOuter u group_names g1s nodes adj = some r →
    ∀ a ∈ g1s, ∀ b ∈ group_names, b ≠ a →
    ma_unit_has_edge_between_groups u [a, b] = some true →
    (a, b) ∈ r.2 ∨ (b, a) ∈ r.2 := by
  intro g1s
  induction g1s with
  | nil =>
    intro nodes adj r h a ha
    cases ha
  | cons g1 rest ih =>
    intro nodes adj r h a ha b hb hne hedge
    rw [edgeLoopOuter] at h
    rcases hadj1 : edgeLoopInner u g1 (group_names.filter (fun g => g ≠ g1)) adj with _ | adj1 <;>
      simp only [hadj1] at h
    · cases h
    · rcases List.mem_cons.mp ha with rfl | ha
      · have hbf : b ∈ group_names.filter (fun g => g ≠ a) :=
          List.mem_filter.mpr ⟨hb, by simp [hne]⟩
        rcases edgeLoopInner_complete u a _ adj adj1 hadj1 b hbf hedge with hin | hin
        · exact Or.inl (edgeLoopOuter_mono u group_names rest _ adj1 r h _ hin)
        · exact Or.inr (edgeLoopOuter_mono u group_names rest _ adj1 r h _ hin)
      · exact ih _ adj1 r h a ha b hb hne hedge

/-- The per-study unit at an outcome and time point, when present. -/
def unitAt (st : Study) (outcome time_point : String) : Option MetaAnalyticUnit :=
  (dlookup st.outcomes_to_follow_ups outcome).bind (fun fus => dlookup fus time_point)

theorem networkStudiesLoop_some (o t : String) :
    ∀ (sts : List Study),
    (∀ st ∈ sts, ∃ u, unitAt st o t = some u) →
    ∀ nodes adj, ∃ r, networkStudiesLoop o t sts nodes adj = some r := by
  intro sts
  induction sts with
  | nil => intro _ nodes adj; exact ⟨(nodes, adj), rfl⟩
  | cons st rest ih =>
    intro H nodes adj
    obtain ⟨u, hu⟩ := H st (List.mem_cons_self _ _)
    rw [unitAt] at hu
    rcases hfus : dlookup st.outcomes_to_follow_ups o with _ | fus
    · rw [hfus] at hu
      cases hu
    · rw [hfus] at hu
      simp only [Option.some_bind] at hu
      obtain ⟨r1, hr1⟩ := edgeLoopOuter_some u u.get_group_names
        (fun g hg => (dhasKey_iff_mem_dkeys _ _).mpr hg) u.get_group_names
        (fun g hg => (dhasKey_iff_mem_dkeys _ _).mpr hg) nodes adj
      obtain ⟨r, hr⟩ := ih (fun s hs => H s (List.mem_cons_of_mem _ hs)) r1.1 r1.2
      refine ⟨r, ?_⟩
      rw [networkStudiesLoop]
      simp only [hfus, hu, hr1]
      exact hr

theorem networkStudiesLoop_sound (o t : String) :
    ∀ (sts : List Study) (nodes : List String) (adj : List (String × String))
      (r : List String × List (String × String)),
    networkStudiesLoop o t sts nodes adj = some r →
    ∀ e ∈ r.2, e ∈ adj ∨ ∃ st ∈ sts, ∃ u, unitAt st o t = some u ∧
      ma_unit_has_edge_between_groups u [e.1, e.2] = some true := by
  intro sts
  induction sts with
  | nil =>
    intro nodes adj r h e he
    rw [networkStudiesLoop] at h
    cases h
    exact Or.inl he
  | cons st rest ih =>
    intro nodes adj r h e he
    rw [networkStudiesLoop] at h
    rcases hfus : dlookup st.outcomes_to_follow_ups o with _ | fus <;>
      simp only [hfus] at h
    · cases h
    · rcases hu : dlookup fus t with _ | u <;> simp only [hu] at h
      · cases h
      · rcases hr1 : edgeLoopOuter u u.get_group_names u.get_group_names nodes adj
          with _ | r1 <;> simp only [hr1] at h
        · cases h
        · rcases ih _ _ r h e he with hin | ⟨st', hst', u', hu', hedge⟩
          · rcases edgeLoopOuter_sound u u.get_group_names _ nodes adj r1 hr1 e hin
              with hin' | hedge
            · exact Or.inl hin'
            · refine Or.inr ⟨st, List.mem_cons_self _ _, u, ?_, hedge⟩
              rw [unitAt, hfus]
              simp [hu]
          · exact Or.inr ⟨st', List.mem_cons_of_mem _ hst', u', hu', hedge⟩

theorem networkStudiesLoop_mono (o t : String) :
    ∀ (sts : List Study) (nodes : List String) (adj : List (String × String))
      (r : List String × List (String × String)),
    networkStudiesLoop o t sts nodes adj = some r → ∀ e ∈ adj, e ∈ r.2 := by
  intro sts
  induction sts with
  | nil =>
    intro nodes adj r h e he
    rw [networkStudiesLoop] at h
    cases h
    exact he
  | cons st rest ih =>
    intro nodes adj r h e he
    rw [networkStudiesLoop] at h
    rcases hfus : dlookup st.outcomes_to_follow_ups o with _ | fus <;>
      simp only [hfus] at h
    · cases h
    · rcases hu : dlookup fus t with _ | u <;> simp only [hu] at h
      · cases h
      · rcases hr1 : edgeLoopOuter u u.get_group_names u.get_group_names nodes adj
          with _ | r1 <;> simp only [hr1] at h
        · cases h
        · exact ih _ _ r h e (edgeLoopOuter_mono u u.get_group_names _ nodes adj r1 hr1 e he)

theorem networkStudiesLoop_complete (o t : String) :
    ∀ (sts : List Study) (nodes : List String) (adj : List (String × String))
      (r : List String × List (String × String)),
    networkStudiesLoop o t sts nodes adj = some r →
    ∀ st ∈ sts, ∀ u, unitAt st o t = some u →
    ∀ a b, ma_unit_has_edge_between_groups u [a, b] = some true → b ≠ a →
    (a, b) ∈ r.2 ∨ (b, a) ∈ r.2 := by
  intro sts
  induction sts with
  | nil =>
    intro nodes adj r h st hst
    cases hst
  | cons sth rest ih =>
    intro nodes adj r h st hst u hu a b hedge hne
    rw [networkStudiesLoop] at h
    rcases hfus : dlookup sth.outcomes_to_follow_ups o with _ | fus <;>
      simp only [hfus] at h
    · cases h
    · rcases hut : dlookup fus t with _ | ut <;> simp only [hut] at h
      · cases h
      · rcases hr1 : edgeLoopOuter ut ut.get_group_names ut.get_group_names nodes adj
          with _ | r1 <;> simp only [hr1] at h
        · cases h
        · rcases List.mem_cons.mp hst with rfl | hst
          · have huu : ut = u := by
              rw [unitAt, hfus] at hu
              simp only [Option.some_bind, hut] at hu
              exact Option.some.inj hu
            subst huu
            have hmem : ∀ (x y : String) (tg : TreatmentGroup),
                dlookup ut.tx_groups x = some tg → x ∈ ut.get_group_names := by
              intro x y tg hx
              exact mem_dkeys_of_dlookup _ _ _ hx
            obtain ⟨⟨tga, hga, _⟩, ⟨tgb, hgb, _⟩⟩ := (ma_unit_has_edge_pair ut a b).mp hedge
            rcases edgeLoopOuter_complete ut ut.get_group_names ut.get_group_names nodes adj r1
                hr1 a (mem_dkeys_of_dlookup _ _ _ hga) b (mem_dkeys_of_dlookup _ _ _ hgb)
                hne hedge with hin | hin
            · exact Or.inl (networkStudiesLoop_mono o t rest r1.1 r1.2 r h _ hin)
            · exact Or.inr (networkStudiesLoop_mono o t rest r1.1 r1.2 r h _ hin)
          · exact ih _ _ r h st hst u hu a b hedge hne

/-- The spec's example unit: binary outcome "Mortality", default groups
"tx A"/"tx B", raw data `[[5, 50], [3, 50]]`. -/
def exU : MetaAnalyticUnit :=
  { outcome := ⟨"Mortality", BINARY⟩,
    tx_groups := [("tx A", ⟨0, "tx A", [.vint 5, .vint 50]⟩),
                  ("tx B", ⟨1, "tx B", [.vint 3, .vint 50]⟩)],
    raw_data_length := 2,
    effects_dict := initialEffectsDict BINARY }

def exStudy : Study :=
  ⟨0, "s1", none, [("Mortality", [("baseline", exU)])], [⟨"Mortality", BINARY⟩], []⟩

def exDS : Dataset :=
  ⟨none, none, [exStudy], [("Mortality", [(0, "baseline")])], [], ""⟩

/-- A unit whose "tx A" raw data contains the `None` empty cell (and no `""`). -/
def cxU : MetaAnalyticUnit :=
  { outcome := outcomeO,
    tx_groups := [("tx A", ⟨0, "tx A", [.vnone, .vint 5]⟩),
                  ("tx B", ⟨1, "tx B", [.vint 5, .vint 50]⟩)],
    raw_data_length := 2,
    effects_dict := initialEffectsDict BINARY }

def cxStudy : Study := ⟨0, "s1", none, [("O", [("baseline", cxU)])], [outcomeO], []⟩

def cxDS : Dataset := ⟨none, none, [cxStudy], [("O", [(0, "baseline")])], [], ""⟩

/-- C1 counterexample: `cxU` is exactly the unit
`MetaAnalyticUnit(outcome, raw_data=[[None, 5], [5, 50]])`; the "tx A" row
contains an empty cell in the sense of `EMPTY_VALS` (a `None`), yet
`get_network` still returns the edge ("tx A", "tx B") — the source's edge
check looks only for the empty string `""`. -/
theorem get_network_empty_cell_counterexample :
    initMAUnit outcomeO (some [[.vnone, .vint 5], [.vint 5, .vint 50]]) none = some cxU ∧
    dlookup cxU.tx_groups "tx A" = some ⟨0, "tx A", [.vnone, .vint 5]⟩ ∧
    containsEmptyCell [.vnone, .vint 5] = true ∧
    cxDS.get_network "O" "baseline" = some (["tx A", "tx B"], [("tx A", "tx B")]) := by
  decide

/-- C1 (amended): when every study has a unit at the outcome and time point,
`get_network` succeeds, and it returns an edge between two distinct group
names (in one of the two orientations) iff in some study's unit both groups
are present and neither group's raw data list contains the empty-string cell
`""` (the source's `ma_unit_has_edge_between_groups` check); moreover on the
spec's concrete example the result is nodes ["tx A", "tx B"] and the single
edge ("tx A", "tx B"). -/
theorem get_network_edge_iff (ds : Dataset) (outcome time_point : String)
    (H : ∀ st ∈ ds.studies, ∃ u, unitAt st outcome time_point = some u) :
    (∃ nodes adj, ds.get_network outcome time_point = some (nodes, adj) ∧
      ∀ a b, a ≠ b → (((a, b) ∈ adj ∨ (b, a) ∈ adj) ↔
        ∃ st ∈ ds.studies, ∃ u, unitAt st outcome time_point = some u ∧
          ma_unit_has_edge_between_groups u [a, b] = some true))
    ∧ exDS.get_network "Mortality" "baseline" =
        some (["tx A", "tx B"], [("tx A", "tx B")]) := by
  refine ⟨?_, by decide⟩
  obtain ⟨⟨nodes, adj⟩, hr⟩ := networkStudiesLoop_some outcome time_point ds.studies H [] []
  refine ⟨pySet nodes, adj, ?_, ?_⟩
  · rw [Dataset.get_network, hr]
  · intro a b hab
    constructor
    · rintro (hin | hin)
      · rcases networkStudiesLoop_sound outcome time_point ds.studies [] [] (nodes, adj) hr
          (a, b) hin with h0 | ⟨st, hst, u, hu, hedge⟩
        · cases h0
        · exact ⟨st, hst, u, hu, hedge⟩
      · rcases networkStudiesLoop_sound outcome time_point ds.studies [] [] (nodes, adj) hr
          (b, a) hin with h0 | ⟨st, hst, u, hu, hedge⟩
        · cases h0
        · exact ⟨st, hst, u, hu, (ma_unit_has_edge_pair_symm u b a).mp hedge⟩
    · rintro ⟨st, hst, u, hu, hedge⟩
      exact networkStudiesLoop_complete outcome time_point ds.studies [] [] (nodes, adj) hr
        st hst u hu a b hedge (Ne.symm hab)

/-- Witness for the amended C1 at the spec's example dataset. -/
theorem get_network_edge_iff_witness :
    (∃ nodes adj, exDS.get_network "Mortality" "baseline" = some (nodes, adj) ∧
      ∀ a b, a ≠ b → (((a, b) ∈ adj ∨ (b, a) ∈ adj) ↔
        ∃ st ∈ exDS.studies, ∃ u, unitAt st "Mortality" "baseline" = some u ∧
          ma_unit_has_edge_between_groups u [a, b] = some true))
    ∧ exDS.get_network "Mortality" "baseline" =
        some (["tx A", "tx B"], [("tx A", "tx B")]) :=
  get_network_edge_iff exDS "Mortality" "baseline"
    (fun st hst => by
      have hst' : st = exStudy := by simpa [exDS] using hst
      subst hst'
      exact ⟨exU, rfl⟩)

/-- Witness for C10: the roundtrip at a concrete binary unit and effect "OR". -/
theorem set_effect_and_ci_roundtrip_witness :
    (emptyUnit.set_effect_and_ci "OR" (.vint 2) (.vint 1) (.vint 3)).2 = none ∧
    (emptyUnit.set_effect_and_ci "OR" (.vint 2) (.vint 1) (.vint 3)).1.get_effect_and_ci "OR" =
      some (.vint 2, .vint 1, .vint 3) ∧
    (∃ d', dlookup (emptyUnit.set_effect_and_ci "OR" (.vint 2) (.vint 1) (.vint 3)).1.effects_dict "OR" = some d' ∧
      dlookup d' "variance" = dlookup blankBinaryEffect "variance" ∧
      dlookup d' "SE" = dlookup blankBinaryEffect "SE") ∧
    (∀ e', e' ≠ "OR" →
      dlookup (emptyUnit.set_effect_and_ci "OR" (.vint 2) (.vint 1) (.vint 3)).1.effects_dict e' =
        dlookup emptyUnit.effects_dict e') :=
  set_effect_and_ci_roundtrip emptyUnit "OR" (.vint 2) (.vint 1) (.vint 3)
    blankBinaryEffect (by decide)

end MADataset
